import Mathlib

/-!
Verification development for the PDF metadata scanner
(`pdf_metadata_scanner.py`).  Strings are modelled as `List Char`; each
Python regular expression used by the scanner is embedded as an explicit
deterministic scanner with Python `re` semantics (leftmost match,
non-overlapping `findall`/`sub`, greedy and lazy quantifiers resolved as
the concrete patterns force them).  All definitions are executable.
-/

namespace MetaPDF

/-! ### Character classes (Python `re` ASCII classes) -/

/-- Python `\d` (ASCII digits, as produced by the scanner's inputs). -/
def isDig (c : Char) : Bool := 48 ≤ c.toNat && c.toNat ≤ 57

/-- Python `\s`: space, tab, newline, carriage return, vertical tab, form feed. -/
def isWs (c : Char) : Bool :=
  c = ' ' || c = '\t' || c = '\n' || c = '\r' || c = '\x0b' || c = '\x0c'

/-- Opening bracket class `[\(\[\{]`. -/
def isOpenBr (c : Char) : Bool := c = '(' || c = '[' || c = '{'

/-- Closing bracket class `[\)\]\}]`. -/
def isCloseBr (c : Char) : Bool := c = ')' || c = ']' || c = '}'

/-- ASCII lower-casing, as used for case-insensitive matching and `.lower()`. -/
def toLowerC (c : Char) : Char :=
  if 65 ≤ c.toNat && c.toNat ≤ 90 then Char.ofNat (c.toNat + 32) else c

def lowerList (cs : List Char) : List Char := cs.map toLowerC

/-- Numeric value of a digit character. -/
def dv (c : Char) : Nat := c.toNat - 48

/-! ### Matcher primitives -/

/-- Consume exactly `n` digit characters (regex `\d{n}`). -/
def takeDigits : Nat → List Char → Option (List Char × List Char)
  | 0, cs => some ([], cs)
  | _ + 1, [] => none
  | n + 1, c :: cs =>
    if isDig c then
      match takeDigits n cs with
      | some (ds, r) => some (c :: ds, r)
      | none => none
    else none

/-- Consume one literal character. -/
def expectCh (x : Char) : List Char → Option (List Char)
  | c :: cs => if c = x then some cs else none
  | [] => none

/-- Consume one character of a class. -/
def expectClass (p : Char → Bool) : List Char → Option (Char × List Char)
  | c :: cs => if p c then some (c, cs) else none
  | [] => none

/-- Case-insensitive literal word (the table word is lower case);
returns the original matched characters. -/
def takeCI : List Char → List Char → Option (List Char × List Char)
  | [], cs => some ([], cs)
  | _ :: _, [] => none
  | p :: ps, c :: cs =>
    if toLowerC c = p then
      match takeCI ps cs with
      | some (t, r) => some (c :: t, r)
      | none => none
    else none

/-- Regex alternation over a word list (the concrete month alternations are
prefix-free, so the first matching alternative is the only one). -/
def matchNameCI : List (List Char) → List Char → Option (List Char × List Char)
  | [], _ => none
  | n :: ns, cs =>
    match takeCI n cs with
    | some res => some res
    | none => matchNameCI ns cs

/-! ### `re.findall` / `re.sub` drivers

Each matcher consumes at least one character on success, so a fuel of the
input length is enough for the leftmost, non-overlapping scan Python uses. -/

def findallAux {α : Type} (m : List Char → Option (α × List Char)) :
    Nat → List Char → List α
  | 0, _ => []
  | _ + 1, [] => []
  | fuel + 1, c :: cs =>
    match m (c :: cs) with
    | some (a, r) => a :: findallAux m fuel r
    | none => findallAux m fuel cs

def findall {α : Type} (m : List Char → Option (α × List Char)) (cs : List Char) :
    List α :=
  findallAux m cs.length cs

def subAllAux (m : List Char → Option (List Char)) (repl : List Char) :
    Nat → List Char → List Char
  | 0, cs => cs
  | _ + 1, [] => []
  | fuel + 1, c :: cs =>
    match m (c :: cs) with
    | some r => repl ++ subAllAux m repl fuel r
    | none => c :: subAllAux m repl fuel cs

def subAll (m : List Char → Option (List Char)) (repl cs : List Char) : List Char :=
  subAllAux m repl cs.length cs

/-- Position-aware driver for patterns anchored with `(?:^|\s+)`. -/
def findallPosAux {α : Type} (m : Bool → List Char → Option (α × List Char)) :
    Bool → Nat → List Char → List α
  | _, 0, _ => []
  | _, _ + 1, [] => []
  | atStart, fuel + 1, c :: cs =>
    match m atStart (c :: cs) with
    | some (a, r) => a :: findallPosAux m false fuel r
    | none => findallPosAux m false fuel cs

def findallPos {α : Type} (m : Bool → List Char → Option (α × List Char))
    (cs : List Char) : List α :=
  findallPosAux m true cs.length cs

/-- Python `str.replace(pat, repl)` (all occurrences, left to right). -/
def leadsWith : List Char → List Char → Bool
  | [], _ => true
  | _ :: _, [] => false
  | p :: ps, c :: cs => p = c && leadsWith ps cs

def replaceAllAux (pat repl : List Char) : Nat → List Char → List Char
  | 0, cs => cs
  | _ + 1, [] => []
  | fuel + 1, c :: cs =>
    if leadsWith pat (c :: cs) then
      repl ++ replaceAllAux pat repl fuel (List.drop pat.length (c :: cs))
    else c :: replaceAllAux pat repl fuel cs

def replaceAll (cs pat repl : List Char) : List Char :=
  replaceAllAux pat repl cs.length cs

/-! ### Stripping -/

def lstripWs (cs : List Char) : List Char := cs.dropWhile isWs

def rstripWs (cs : List Char) : List Char := (cs.reverse.dropWhile isWs).reverse

/-- Python `str.strip()`. -/
def stripWs (cs : List Char) : List Char := rstripWs (lstripWs cs)

/-- Python `str.strip(chars)` / `str.rstrip(chars)`. -/
def stripChars (set cs : List Char) : List Char :=
  ((cs.dropWhile (fun c => set.contains c)).reverse.dropWhile
    (fun c => set.contains c)).reverse

def rstripChars (set cs : List Char) : List Char :=
  (cs.reverse.dropWhile (fun c => set.contains c)).reverse

/-! ### Calendar validation (`datetime.strptime(formatted, "%Y-%m-%d")`)

All strings the scanner validates have the exact shape `dddd-dd-dd`, on which
`strptime` succeeds iff the fields form a real proleptic-Gregorian calendar
date with year in `1..9999`. -/

def isLeap (y : Nat) : Bool := (y % 4 = 0 && y % 100 ≠ 0) || y % 400 = 0

def daysInMonth (y m : Nat) : Nat :=
  if m = 2 then (if isLeap y then 29 else 28)
  else if m = 4 || m = 6 || m = 9 || m = 11 then 30
  else 31

def validYMD (y m d : Nat) : Bool :=
  1 ≤ y && y ≤ 9999 && 1 ≤ m && m ≤ 12 && 1 ≤ d && d ≤ daysInMonth y m

/-- Decompose an exact `dddd-dd-dd` string into year, month, day. -/
def parseDate10 : List Char → Option (Nat × Nat × Nat)
  | [a, b, c, d, h1, e, f, h2, g, h] =>
    if isDig a && isDig b && isDig c && isDig d && h1 = '-' &&
        isDig e && isDig f && h2 = '-' && isDig g && isDig h then
      some (dv a * 1000 + dv b * 100 + dv c * 10 + dv d,
            dv e * 10 + dv f, dv g * 10 + dv h)
    else none
  | _ => none

def isValidDate (s : List Char) : Bool :=
  match parseDate10 s with
  | some (y, m, d) => validYMD y m d
  | none => false

/-- Calendar value of a validated date string, for "earliest" comparisons. -/
def dateNum (s : List Char) : Nat :=
  match parseDate10 s with
  | some (y, m, d) => y * 10000 + m * 100 + d
  | none => 0

/-! ### Python string `<` and `min` -/

def strLt : List Char → List Char → Bool
  | [], [] => false
  | [], _ :: _ => true
  | _ :: _, [] => false
  | a :: as, b :: bs =>
    if a.toNat < b.toNat then true
    else if b.toNat < a.toNat then false
    else strLt as bs

/-- `min(xs)` on a nonempty list, Python semantics (first minimum is kept). -/
def pyMinStep (a b : List Char) : List Char := if strLt b a then b else a

def pyMin (x : List Char) (xs : List (List Char)) : List Char :=
  xs.foldl pyMinStep x

/-! ### The date recognizers of `parse_date_from_parentheses` -/

/-- `r'[\(\[\{](\d{4}-\d{2}-\d{2})[\)\]\}]'` -/
def m_full_date (cs : List Char) : Option (List Char × List Char) := do
  let (_, r0) ← expectClass isOpenBr cs
  let (y, r1) ← takeDigits 4 r0
  let r2 ← expectCh '-' r1
  let (mo, r3) ← takeDigits 2 r2
  let r4 ← expectCh '-' r3
  let (dd, r5) ← takeDigits 2 r4
  let (_, r6) ← expectClass isCloseBr r5
  some (y ++ '-' :: mo ++ '-' :: dd, r6)

/-- Lazy `.*?(\d{8})`: first run of eight digits, `.` not crossing a newline. -/
def scanDigits8 : List Char → Option (List Char × List Char)
  | [] => none
  | c :: cs =>
    match takeDigits 8 (c :: cs) with
    | some (ds, r) => some (ds, r)
    | none => if c = '\n' then none else scanDigits8 cs

/-- Lazy `.*?[\)\]\}]`: skip (no newline) to the first closing bracket. -/
def scanClose : List Char → Option (List Char)
  | [] => none
  | c :: cs => if isCloseBr c then some cs else if c = '\n' then none else scanClose cs

/-- `r'[\(\[\{].*?(\d{8}).*?[\)\]\}]'` -/
def m_compact_date (cs : List Char) : Option (List Char × List Char) := do
  let (_, r0) ← expectClass isOpenBr cs
  let (ds, r1) ← scanDigits8 r0
  let r2 ← scanClose r1
  some (ds, r2)

/-- The mandatory part `(\d{4}-\d{4})_\d+[\)\]\}]` of the expense pattern. -/
def expenseCore (cs : List Char) : Option ((List Char × List Char) × List Char) := do
  let (y, r1) ← takeDigits 4 cs
  let r2 ← expectCh '-' r1
  let (md, r3) ← takeDigits 4 r2
  let r4 ← expectCh '_' r3
  let (ds, r5) := List.span isDig r4
  if ds = [] then none
  else do
    let (_, r6) ← expectClass isCloseBr r5
    some ((y, md), r6)

def scanExpense : List Char → Option ((List Char × List Char) × List Char)
  | [] => none
  | c :: cs =>
    match expenseCore (c :: cs) with
    | some res => some res
    | none => if c = '\n' then none else scanExpense cs

/-- `r'[\(\[\{].*?(\d{4}-\d{4})_\d+[\)\]\}]'`; the capture is returned as the
pair of its two four-digit halves (the code re-splits it on the dash). -/
def m_expense_date (cs : List Char) : Option ((List Char × List Char) × List Char) := do
  let (_, r0) ← expectClass isOpenBr cs
  scanExpense r0

/-- `r'[\(\[\{](\d{4})[\)\]\}]'` -/
def m_year (cs : List Char) : Option (List Char × List Char) := do
  let (_, r0) ← expectClass isOpenBr cs
  let (y, r1) ← takeDigits 4 r0
  let (_, r2) ← expectClass isCloseBr r1
  some (y, r2)

/-- Full month names, in the regex alternation order. -/
def monthFull : List (List Char) :=
  [ "january".toList, "february".toList, "march".toList, "april".toList,
    "may".toList, "june".toList, "july".toList, "august".toList,
    "september".toList, "october".toList, "november".toList, "december".toList ]

/-- Abbreviated month names, in the regex alternation order. -/
def monthShort : List (List Char) :=
  [ "jan".toList, "feb".toList, "mar".toList, "apr".toList, "may".toList,
    "jun".toList, "jul".toList, "aug".toList, "sep".toList, "oct".toList,
    "nov".toList, "dec".toList ]

/-- The `month_map` dictionary of the scanner, in source order. -/
def month_map : List (List Char × List Char) :=
  [ ( "january".toList, "01".toList), ( "february".toList, "02".toList),
    ( "march".toList, "03".toList), ( "april".toList, "04".toList),
    ( "may".toList, "05".toList), ( "june".toList, "06".toList),
    ( "july".toList, "07".toList), ( "august".toList, "08".toList),
    ( "september".toList, "09".toList), ( "october".toList, "10".toList),
    ( "november".toList, "11".toList), ( "december".toList, "12".toList),
    ( "jan".toList, "01".toList), ( "feb".toList, "02".toList),
    ( "mar".toList, "03".toList), ( "apr".toList, "04".toList),
    ( "jun".toList, "06".toList), ( "jul".toList, "07".toList),
    ( "aug".toList, "08".toList), ( "sep".toList, "09".toList),
    ( "oct".toList, "10".toList), ( "nov".toList, "11".toList),
    ( "dec".toList, "12".toList) ]

def month_map_get (k : List Char) : Option (List Char) :=
  (month_map.find? (fun p => p.1 = k)).map (·.2)

/-- `r'[\(\[\{]((?:January|...|December))\s+(\d{4})[\)\]\}]'` (IGNORECASE). -/
def m_text_month_year (cs : List Char) :
    Option ((List Char × List Char) × List Char) := do
  let (_, r0) ← expectClass isOpenBr cs
  let (mName, r1) ← matchNameCI monthFull r0
  let (w, r2) := List.span isWs r1
  if w = [] then none
  else do
    let (y, r3) ← takeDigits 4 r2
    let (_, r4) ← expectClass isCloseBr r3
    some ((mName, y), r4)

/-- `r'[\(\[\{]((?:Jan|...|Dec))\s+(\d{4})[\)\]\}]'` (IGNORECASE). -/
def m_short_month (cs : List Char) :
    Option ((List Char × List Char) × List Char) := do
  let (_, r0) ← expectClass isOpenBr cs
  let (mName, r1) ← matchNameCI monthShort r0
  let (w, r2) := List.span isWs r1
  if w = [] then none
  else do
    let (y, r3) ← takeDigits 4 r2
    let (_, r4) ← expectClass isCloseBr r3
    some ((mName, y), r4)

/-- `[^\)\]\}]*` followed by a closing bracket: skip to the first closer. -/
def scanCloseAny : List Char → Option (List Char)
  | [] => none
  | c :: cs => if isCloseBr c then some cs else scanCloseAny cs

/-- The second bracket `[\(\[\{](Month)[^\)\]\}]*[\)\]\}]` of the range pattern. -/
def monthBracketAt (cs : List Char) : Option (List Char × List Char) := do
  let (_, r0) ← expectClass isOpenBr cs
  let (mName, r1) ← matchNameCI monthFull r0
  let r2 ← scanCloseAny r1
  some (mName, r2)

def scanMonthBracket : List Char → Option (List Char × List Char)
  | [] => none
  | c :: cs =>
    match monthBracketAt (c :: cs) with
    | some res => some res
    | none => if c = '\n' then none else scanMonthBracket cs

/-- `r'[\(\[\{](\d{4})[\)\]\}].*?[\(\[\{]((?:January|...))[^\)\]\}]*[\)\]\}]'` -/
def m_text_month_range (cs : List Char) :
    Option ((List Char × List Char) × List Char) := do
  let (y, r1) ← m_year cs
  let (mName, r2) ← scanMonthBracket r1
  some ((y, mName), r2)

/-- `r'[\(\[\{](\d{4})-(\d{4})[\)\]\}]'` -/
def m_year_range (cs : List Char) :
    Option ((List Char × List Char) × List Char) := do
  let (_, r0) ← expectClass isOpenBr cs
  let (y1, r1) ← takeDigits 4 r0
  let r2 ← expectCh '-' r1
  let (y2, r3) ← takeDigits 4 r2
  let (_, r4) ← expectClass isCloseBr r3
  some ((y1, y2), r4)

/-! ### `parse_date_from_parentheses` -/

/-- `f"{s[:4]}-{s[4:6]}-{s[6:8]}"` for an eight-digit capture. -/
def fmt8 (ds : List Char) : List Char :=
  ds.take 4 ++ '-' :: ((ds.drop 4).take 2 ++ '-' :: ((ds.drop 6).take 2))

/-- The `dates` list of the first pass: all tier 1-3 captures, formatted and
calendar-validated, in the order the code appends them. -/
def full_precision_dates (filename : List Char) : List (List Char) :=
  let caps := findall m_full_date filename ++ findall m_compact_date filename
  let dates1 := caps.filterMap (fun ds =>
    let fd := if ds.length = 8 && ds.all isDig then fmt8 ds else ds
    if isValidDate fd then some fd else none)
  let dates2 := (findall m_expense_date filename).filterMap (fun p =>
    let fd := p.1 ++ '-' :: (p.2.take 2 ++ '-' :: ((p.2.drop 2).take 2))
    if isValidDate fd then some fd else none)
  dates1 ++ dates2

/-- First `(month, year)` match whose month resolves in `month_map`. -/
def firstMonthYear : List (List Char × List Char) → Option (List Char)
  | [] => none
  | (mName, y) :: rest =>
    match month_map_get (lowerList mName) with
    | some mo => if y = [] then firstMonthYear rest else some (y ++ '-' :: (mo ++ "-01".toList))
    | none => firstMonthYear rest

/-- First `(year, month)` range match whose month resolves, combined with the
year hint. -/
def firstMonthRange (hint : List Char) :
    List (List Char × List Char) → Option (List Char)
  | [] => none
  | (_, mName) :: rest =>
    match month_map_get (lowerList mName) with
    | some mo => some (hint ++ '-' :: (mo ++ "-01".toList))
    | none => firstMonthRange hint rest

/-- `parse_date_from_parentheses(filename)`. -/
def parse_date_from_parentheses (filename : List Char) : Option (List Char) :=
  match full_precision_dates filename with
  | d :: ds => some (pyMin d ds)
  | [] =>
    let year_hint := (findall m_year filename).head?
    match firstMonthYear
        (findall m_text_month_year filename ++ findall m_short_month filename) with
    | some r => some r
    | none =>
      match (match year_hint with
             | some hint => firstMonthRange hint (findall m_text_month_range filename)
             | none => none) with
      | some r => some r
      | none =>
        match findall m_year_range filename with
        | (y1, _) :: _ => some (y1 ++ "-06-01".toList)
        | [] =>
          match year_hint with
          | some hint => some (hint ++ "-06-01".toList)
          | none => none

/-! ### Removal patterns of `clean_filename` (applied with `re.sub`, IGNORECASE) -/

/-- `\s*-\s*` with a mandatory dash. -/
def dashSep (cs : List Char) : Option (List Char) :=
  match expectCh '-' (List.span isWs cs).2 with
  | some r2 => some (List.span isWs r2).2
  | none => none

/-- `\s+` -/
def mWsPlus (cs : List Char) : Option (List Char) :=
  let (w, r) := List.span isWs cs
  if w = [] then none else some r

/-- `\s*-\s*` as a substitution matcher. -/
def mDashSpace (cs : List Char) : Option (List Char) := dashSep cs

/-- `re.match(r'\((\d{4}(?:-\d{2}){0,2})\)', filename)`: the greedy optional
groups are tried with two, one, then zero repetitions. -/
def matchLeadDate (cs : List Char) : Option (List Char × List Char) := do
  let r0 ← expectCh '(' cs
  let (y, r1) ← takeDigits 4 r0
  match (do
      let r2 ← expectCh '-' r1
      let (a, r3) ← takeDigits 2 r2
      let r4 ← expectCh '-' r3
      let (b, r5) ← takeDigits 2 r4
      let r6 ← expectCh ')' r5
      some (y ++ '-' :: a ++ '-' :: b, r6)) with
  | some res => some res
  | none =>
    match (do
        let r2 ← expectCh '-' r1
        let (a, r3) ← takeDigits 2 r2
        let r4 ← expectCh ')' r3
        some (y ++ '-' :: a, r4)) with
    | some res => some res
    | none => (expectCh ')' r1).map (fun r => (y, r))

/-- `r'\(([^)]+)\)'` -/
def mParenTok (cs : List Char) : Option (List Char × List Char) := do
  let r0 ← expectCh '(' cs
  let (inner, r1) := List.span (fun c => c ≠ ')') r0
  if inner = [] then none
  else do
    let r2 ← expectCh ')' r1
    some (inner, r2)

/-- `r'\[([^\]]+)\]'` -/
def mBracketTok (cs : List Char) : Option (List Char × List Char) := do
  let r0 ← expectCh '[' cs
  let (inner, r1) := List.span (fun c => c ≠ ']') r0
  if inner = [] then none
  else do
    let r2 ← expectCh ']' r1
    some (inner, r2)

structure FilenameMetadata where
  date : Option (List Char)
  author : Option (List Char)
  tags : List (List Char)
  title : Option (List Char)
  duplicate_authors : List (List Char)
deriving Repr, DecidableEq

/-- `parse_filename_metadata(filename)`. -/
def parse_filename_metadata (filename : List Char) : FilenameMetadata :=
  let dw : Option (List Char) × List Char :=
    match matchLeadDate filename with
    | some (ds, rest) =>
      (some (if ds.length = 4 then ds ++ "-06-01 12:00:00".toList
             else ds ++ " 12:00:00".toList),
       stripWs rest)
    | none => (none, filename)
  let working := dw.2
  let authors := (findall mParenTok working).map stripWs
  let tags := (findall mBracketTok working).map stripWs
  let title :=
    let t := subAll (fun x => (mParenTok x).map (·.2)) [] working
    let t := subAll (fun x => (mBracketTok x).map (·.2)) [] t
    let t := subAll mWsPlus [' '] t
    let t := subAll mDashSpace ( " - ".toList ) t
    stripChars [' ', '-'] t
  { date := dw.1
    author := authors.head?
    tags := tags
    title := if title = [] then none else some title
    duplicate_authors := authors.tail }

/-- `re.sub(r'\.pdf$', '', t, flags=re.IGNORECASE)`; a non-MULTILINE `$` also
matches just before a final newline. -/
def stripPdfExt (t : List Char) : List Char :=
  if 4 ≤ t.length && lowerList (t.drop (t.length - 4)) = ".pdf".toList then
    t.take (t.length - 4)
  else if 5 ≤ t.length && lowerList (t.drop (t.length - 5)) = ".pdf\n".toList then
    t.take (t.length - 5) ++ ['\n']
  else t

/-- `clean_title_string(title)`. -/
def clean_title_string : Option (List Char) → Option (List Char)
  | none => none
  | some t =>
    if t = [] then none
    else
      let t := stripPdfExt t
      let t := subAll mWsPlus [' '] t
      let t := subAll mDashSpace ( " - ".toList ) t
      some (stripChars [' ', '-'] t)

/-! ### PDF metadata extraction (`extract_pdf_metadata`) -/

/-- `sanitize_field` on a present string: `str(value).replace(',', ';')`. -/
def sanitize_field_str (s : List Char) : List Char :=
  s.map (fun c => if c = ',' then ';' else c)

/-- `sanitize_field(value)`: `None` stays `None`. -/
def sanitize_field : Option (List Char) → Option (List Char) :=
  Option.map sanitize_field_str

/-- `os.path.basename` (POSIX): the part after the last slash. -/
def basenameFn (p : List Char) : List Char :=
  ((List.span (fun c => c ≠ '/') p.reverse).1).reverse

/-- Substring containment (`in` on Python strings). -/
def hasSub (pat : List Char) : List Char → Bool
  | [] => pat.isEmpty
  | c :: cs => leadsWith pat (c :: cs) || hasSub pat cs

/-- The raw metadata dictionary a readable PDF yields (string-valued fields;
an unreadable or non-string field is already `none`). -/
structure PdfInfo where
  title : Option (List Char)
  author : Option (List Char)
  subject : Option (List Char)
  keywords : Option (List Char)
  creationDate : Option (List Char)
deriving Repr, DecidableEq

/-- Outcome of opening a PDF: an exception while opening, an encrypted file,
an exception while reading the metadata, or a readable info dictionary. -/
inductive ReadResult where
  | openErr (msg : List Char)
  | encrypted
  | metaErr (msg : List Char)
  | ok (info : PdfInfo)
deriving Repr, DecidableEq

/-- The dictionary `extract_pdf_metadata` returns. -/
structure PdfMetadataRow where
  filename : List Char
  filepath : List Char
  has_title : Bool
  title : Option (List Char)
  has_author : Bool
  author : Option (List Char)
  has_subject : Bool
  subject : Option (List Char)
  has_tags : Bool
  tags : Option (List Char)
  has_date : Bool
  date : Option (List Char)
  raw_date_string : Option (List Char)
  error : Option (List Char)
deriving Repr, DecidableEq

/-- `create_error_metadata(filepath, error_msg)`. -/
def create_error_metadata (filepath msg : List Char) : PdfMetadataRow :=
  { filename := sanitize_field_str (basenameFn filepath)
    filepath := sanitize_field_str filepath
    has_title := false, title := none
    has_author := false, author := none
    has_subject := false, subject := none
    has_tags := false, tags := none
    has_date := false, date := none
    raw_date_string := none
    error := some msg }

/-- `datetime.strptime(raw_date[2:14], "%Y%m%d%H%M")` succeeds on the exact
twelve-digit shape with a real calendar date and time. -/
def valid12Stamp (s : List Char) : Bool :=
  match s with
  | [a, b, c, d, e, f, g, h, i, j, k, l] =>
    (isDig a && isDig b && isDig c && isDig d && isDig e && isDig f &&
     isDig g && isDig h && isDig i && isDig j && isDig k && isDig l) &&
    validYMD (dv a * 1000 + dv b * 100 + dv c * 10 + dv d)
      (dv e * 10 + dv f) (dv g * 10 + dv h) &&
    (dv i * 10 + dv j ≤ 23) && (dv k * 10 + dv l ≤ 59)
  | _ => false

/-- `extract_pdf_metadata(filepath)`, as a function of the read outcome. -/
def extract_pdf_metadata (filepath : List Char) : ReadResult → PdfMetadataRow
  | .openErr msg =>
    let m :=
      if hasSub ( "PyCryptodome is required".toList ) msg then
        "Encrypted PDF (requires PyCryptodome)".toList
      else if hasSub ( "EOF marker not found".toList ) msg then
        "Corrupted PDF (EOF marker not found)".toList
      else msg
    create_error_metadata filepath m
  | .encrypted => create_error_metadata filepath ( "Encrypted PDF".toList )
  | .metaErr msg => create_error_metadata filepath ( "Metadata error: ".toList ++ msg)
  | .ok info =>
    let fld : Option (List Char) → Option (List Char) := fun v =>
      match v with
      | some s => if s = [] then none else some (sanitize_field_str s)
      | none => none
    let raw := info.creationDate
    let pdf_date : Option (List Char) :=
      match raw with
      | some r =>
        if leadsWith ( "D:".toList ) r && valid12Stamp ((r.drop 2).take 12) then
          some ((r.drop 2).take 12)
        else none
      | none => none
    { filename := sanitize_field_str (basenameFn filepath)
      filepath := sanitize_field_str filepath
      has_title := (fld info.title).isSome, title := fld info.title
      has_author := (fld info.author).isSome, author := fld info.author
      has_subject := (fld info.subject).isSome, subject := fld info.subject
      has_tags := (fld info.keywords).isSome, tags := fld info.keywords
      has_date := pdf_date.isSome, date := pdf_date
      raw_date_string := sanitize_field raw
      error := none }

/-! ### The write plan of `metadata_write` and the dryrun's `will_write` -/

/-- `re.match(r'\(\d{4}(?:-\d{2}){0,2}\)\s*(.+)', filename)`, returning
group 1: after the date token, a greedy `\s*`, backtracked until `.+` can
match at least one non-newline character. -/
def tailAfterWs (rest : List Char) : Option (List Char) :=
  let (w, r) := List.span isWs rest
  match r with
  | c :: _ => some ((c :: r.tail).takeWhile (fun x => x ≠ '\n'))
  | [] =>
    match w.reverse.dropWhile (fun x => x = '\n') with
    | c :: _ => some [c]
    | [] => none

def matchLeadTail (cs : List Char) : Option (List Char) :=
  match matchLeadDate cs with
  | none => none
  | some (_, rest) => tailAfterWs rest

/-- The `title_text` computed inside `metadata_write` (strip the date token
from the raw filename if possible, else use the parsed title; drop the
extension, collapse whitespace, strip). -/
def title_text_for (filename fmTitle : List Char) : List Char :=
  let t :=
    match matchLeadTail filename with
    | some rest => rest
    | none => fmTitle
  stripWs (subAll mWsPlus [' '] (stripPdfExt t))

/-- The `metadata_to_write` dictionary built by `metadata_write`
(lines 734-787), keyed in insertion order. -/
def metadata_write_plan (filename : List Char) (pm : PdfMetadataRow)
    (fm : FilenameMetadata) : List (String × List Char) :=
  let p1 :=
    match fm.date with
    | some d =>
      if d = [] then []
      else [( "/CreationDate",
              "D:".toList ++ d.filter (fun c => !(c = '-' || c = ' ' || c = ':')))]
    | none => []
  let p2 :=
    match fm.author with
    | some a => if a = [] || pm.has_author then [] else [( "/Author", stripWs a)]
    | none => []
  let p3 :=
    if fm.tags = [] then []
    else [( "/Keywords", List.intercalate ( ", ".toList ) fm.tags)]
  let p4 :=
    match fm.title with
    | some t =>
      if t = [] then []
      else
        match clean_title_string (some t) with
        | some ct =>
          if ct = [] then []
          else
            let tt := title_text_for filename t
            [( "/Title", tt), ( "/Subject", tt)]
        | none => []
    | none => []
  p1 ++ p2 ++ p3 ++ p4

/-- `will_write['title']` in `metadata_write_dryrun` (line 596). -/
def will_write_title (pm : PdfMetadataRow) : Bool := !(pm.has_title || pm.has_subject)

/-- `will_write['subject']` in `metadata_write_dryrun` (line 597). -/
def will_write_subject (pm : PdfMetadataRow) : Bool := !(pm.has_title || pm.has_subject)

/-- `will_write['author']` in `metadata_write_dryrun` (line 594). -/
def will_write_author (pm : PdfMetadataRow) : Bool := !pm.has_author

/-! ### The document rewrite of `metadata_write` (lines 792-812) -/

/-- A PDF document: a page list (pages are opaque, modelled by naturals) and
a metadata dictionary with later-binding-wins lookup. -/
structure PdfDoc where
  pages : List Nat
  meta : List (String × List Char)
deriving Repr, DecidableEq

/-- Dictionary lookup where a later `add_metadata` binding overrides an
earlier one (`dict.update` semantics of PyPDF2's writer metadata). -/
def metaGet (l : List (String × List Char)) (k : String) : Option (List Char) :=
  l.foldl (fun acc p => if p.1 = k then some p.2 else acc) none

def add_metadata (w : PdfDoc) (m : List (String × List Char)) : PdfDoc :=
  { w with meta := w.meta ++ m }

/-- `for page in reader.pages: writer.add_page(page)`. -/
def add_pages (w : PdfDoc) (ps : List Nat) : PdfDoc :=
  { w with pages := ps.foldl (fun acc p => acc ++ [p]) w.pages }

/-- The writer document produced by `metadata_write`: copy all pages, copy the
existing metadata when present, then overlay the planned fields. -/
def metadata_write_rewrite (reader : PdfDoc) (plan : List (String × List Char)) :
    PdfDoc :=
  let w := PdfDoc.mk [] []
  let w := add_pages w reader.pages
  let w := if reader.meta = [] then w else add_metadata w reader.meta
  add_metadata w plan

/-! ### `clean_trailing_separators` -/

/-- `os.path.splitext` (POSIX): split at the last dot of the basename unless
every character before it in the basename is a dot. -/
def splitextFn (p : List Char) : List Char × List Char :=
  let rv := p.reverse
  let (baseRev, dirRev) := List.span (fun c => c ≠ '/') rv
  match List.span (fun c => c ≠ '.') baseRev with
  | (extTailRev, rest) =>
    match rest with
    | '.' :: stemRev =>
      if stemRev.any (fun c => c ≠ '.') then
        (dirRev.reverse ++ stemRev.reverse, '.' :: extTailRev.reverse)
      else (p, [])
    | _ => (p, [])

/-- `re.sub(r'\s*-\s*$', '', s)`: remove one trailing dash together with the
whitespace around it, when the string (ignoring trailing whitespace) ends in
a dash; otherwise leave the string unchanged. -/
def subTrailDashEnd (s : List Char) : List Char :=
  match (rstripWs s).reverse with
  | '-' :: restRev => rstripWs restRev.reverse
  | _ => s

/-- The name-cleaning part of `clean_trailing_separators`: collapse internal
whitespace, strip trailing whitespace, remove one trailing separator group. -/
def ctsName (name : List Char) : List Char :=
  subTrailDashEnd (rstripWs (subAll mWsPlus [' '] name))

/-- `clean_trailing_separators(filename)`. -/
def clean_trailing_separators (filename : List Char) : List Char :=
  ctsName (splitextFn filename).1 ++ (splitextFn filename).2

/-! ### `find_embedded_dates` and the outlier proposal -/

/-- `.zfill(2)` on a one- or two-digit capture. -/
def zfill2 (l : List Char) : List Char := if l.length = 1 then '0' :: l else l

/-- Greedy `(\d{1,2})` with regex backtracking: two digits are preferred, and
one digit is retried when the continuation fails. -/
def d12cont {α : Type} (k : List Char → List Char → Option α) :
    List Char → Option α
  | [] => none
  | [a] => if isDig a then k [a] [] else none
  | a :: b :: r =>
    if isDig a then
      if isDig b then
        match k [a, b] r with
        | some res => some res
        | none => k [a] (b :: r)
      else k [a] (b :: r)
    else none

/-- `r'(\d{4})\s*-\s*(\d{1,2})\s*-\s*(\d{1,2})\s*-\s*'` with its formatter:
yields the zero-filled date and `[m.group(0)]`. -/
def m_embedA (cs : List Char) :
    Option ((List Char × List (List Char)) × List Char) := do
  let (y, r1) ← takeDigits 4 cs
  let (w1, r2) := List.span isWs r1
  let r3 ← expectCh '-' r2
  let (w2, r4) := List.span isWs r3
  d12cont (fun mo r5 => do
    let (w3, r6) := List.span isWs r5
    let r7 ← expectCh '-' r6
    let (w4, r8) := List.span isWs r7
    d12cont (fun dd r9 => do
      let (w5, r10) := List.span isWs r9
      let r11 ← expectCh '-' r10
      let (w6, r12) := List.span isWs r11
      let g0 := y ++ w1 ++ '-' :: (w2 ++ mo ++ w3 ++ '-' :: (w4 ++ dd ++ w5 ++ '-' :: w6))
      let fd := y ++ '-' :: (zfill2 mo ++ '-' :: zfill2 dd)
      some ((fd, [g0]), r12)) r8) r4

/-- `f"{g[2:6]}-{g[7:9]}-{g[9:11]}"`: the offset slicing of the expense
formatter, applied to the whole match text. -/
def sliceFd (g0 : List Char) : List Char :=
  (g0.drop 2).take 4 ++ '-' :: ((g0.drop 7).take 2 ++ '-' :: ((g0.drop 9).take 2))

/-- `r'\s*\(\d{4}-\d{2}\d{2}_\d+\)'` with its formatter: the date is sliced
out of `m.group(0)` by byte offsets, and the removal list also carries the
leading year token when the filename starts with `(YYYY) ...`. -/
def m_embedB (year_lead : Option (List Char)) (cs : List Char) :
    Option ((List Char × List (List Char)) × List Char) := do
  let (w, r0) := List.span isWs cs
  let r1 ← expectCh '(' r0
  let (a, r2) ← takeDigits 4 r1
  let r3 ← expectCh '-' r2
  let (b, r4) ← takeDigits 2 r3
  let (c, r5) ← takeDigits 2 r4
  let r6 ← expectCh '_' r5
  let (ds, r7) := List.span isDig r6
  if ds = [] then none
  else do
    let r8 ← expectCh ')' r7
    let g0 := w ++ '(' :: (a ++ '-' :: (b ++ c ++ '_' :: ds)) ++ [')']
    some ((sliceFd g0,
           match year_lead with
           | some yp => [g0, yp]
           | none => [g0]), r8)

/-- The core `(\d{4})\s*-\s*(\d{1,2})\s*-\s*(\d{1,2})(?:\s+|$)` of the third
embedded pattern, after its anchor has been consumed. -/
def embedCcore (anchor r : List Char) :
    Option ((List Char × List (List Char)) × List Char) := do
  let (y, r1) ← takeDigits 4 r
  let (w1, r2) := List.span isWs r1
  let r3 ← expectCh '-' r2
  let (w2, r4) := List.span isWs r3
  d12cont (fun mo r5 => do
    let (w3, r6) := List.span isWs r5
    let r7 ← expectCh '-' r6
    let (w4, r8) := List.span isWs r7
    d12cont (fun dd r9 =>
      let (wt, rt) := List.span isWs r9
      let fd := y ++ '-' :: (zfill2 mo ++ '-' :: zfill2 dd)
      let core := y ++ w1 ++ '-' :: (w2 ++ mo ++ w3 ++ '-' :: (w4 ++ dd))
      if wt = [] then
        if rt = [] then some ((fd, [anchor ++ core]), []) else none
      else some ((fd, [anchor ++ core ++ wt]), rt)) r8) r4

/-- The `\s+` alternative of the anchor: at least one whitespace character,
then the core. -/
def m_embedC_ws (cs : List Char) :
    Option ((List Char × List (List Char)) × List Char) :=
  if (List.span isWs cs).1 = [] then none
  else embedCcore (List.span isWs cs).1 (List.span isWs cs).2

/-- The `(?:^|\s+)` anchor: at position zero the empty alternative is tried
first, elsewhere only `\s+` applies. -/
def m_embedC (atStart : Bool) (cs : List Char) :
    Option ((List Char × List (List Char)) × List Char) :=
  if atStart then
    match embedCcore [] cs with
    | some res => some res
    | none => m_embedC_ws cs
  else m_embedC_ws cs

/-- All candidates of the three embedded-date patterns, in the order the
pattern loop and `finditer` produce them. -/
def embCandidates (working : List Char) (year_lead : Option (List Char)) :
    List (List Char × List (List Char)) :=
  findall m_embedA working ++ findall (m_embedB year_lead) working ++
    findallPos m_embedC working

/-- `re.match(r'\((\d{4})\)\s*(.+)', filename)`, yielding `f"({year})"`. -/
def matchYearLead (cs : List Char) : Option (List Char) := do
  let r0 ← expectCh '(' cs
  let (y, r1) ← takeDigits 4 r0
  let r2 ← expectCh ')' r1
  match tailAfterWs r2 with
  | some _ => some ('(' :: (y ++ [')']))
  | none => none

/-- `find_embedded_dates(filename, existing_date)`: the first candidate that
validates against the calendar and differs from the existing date. -/
def find_embedded_dates (filename : List Char) (existing : Option (List Char)) :
    Option (List Char × List (List Char)) :=
  let working :=
    match existing with
    | some e => stripWs (replaceAll filename ('(' :: (e ++ [')'])) [])
    | none =>
      match matchLeadTail filename with
      | some rest => rest
      | none => filename
  (embCandidates working (matchYearLead filename)).find? (fun p =>
    isValidDate p.1 &&
      (match existing with
       | none => true
       | some e => p.1 ≠ e))

/-- Step 2 of `outlier_scan` (lines 1074-1088): the embedded-date rename
proposal put to the user, or `none` when no proposal is made. -/
def outlier_embedded_step (filename : List Char) : Option (List Char) :=
  let existing := (matchLeadDate filename).map (·.1)
  match find_embedded_dates filename existing with
  | some (d, ts) =>
    if d ≠ [] && ts ≠ [] then
      let working :=
        clean_trailing_separators
          (ts.foldl (fun acc t => replaceAll acc t []) filename)
      if (match existing with
          | none => true
          | some e => d.length > e.length) then
        some ('(' :: (d ++ ')' :: ' ' :: working))
      else none
    else none
  | none => none

/-! ## Claim-specific inputs -/

/-- A record whose title field is populated, for exercising the write plan. -/
def c1_info : PdfInfo :=
  { title := some ( "Existing Title".toList ), author := none, subject := none,
    keywords := none, creationDate := none }

def c1_pm : PdfMetadataRow :=
  extract_pdf_metadata ( "/x/a.pdf".toList ) (ReadResult.ok c1_info)

def c1_filename : List Char := "(2020-01-01) New Title.pdf".toList

def c1_fm : FilenameMetadata := parse_filename_metadata c1_filename

end MetaPDF

namespace MetaPDF

/-! ## Theorems -/

/-- C1: the dryrun (`metadata_write_dryrun`) plans a title/subject write only
when both existing fields are empty, but `metadata_write` itself puts
`/Title` and `/Subject` into `metadata_to_write` whenever the filename parse
yields a title, even for a record whose title field is populated.  At the
failing input the plan contains both keys while the dryrun flag is false. -/
theorem c1_write_plan_overwrites_title :
    c1_pm.has_title = true ∧
    will_write_title c1_pm = false ∧ will_write_subject c1_pm = false ∧
    metadata_write_plan c1_filename c1_pm c1_fm =
      [( "/CreationDate", "D:20200101120000".toList ),
       ( "/Title", "New Title".toList ),
       ( "/Subject", "New Title".toList )] := by
  decide

/-- C2 counterexample: on the spec's example filename the parser does not
return date `2020-05-01` and title `My Title`; the date carries a noon
timestamp and the title keeps the dangling separator and extension. -/
theorem c2_counterexample :
    ¬ ((parse_filename_metadata
          ( "(2020-05-01) My Title - (Jane Doe) [finance] [tax].pdf".toList )).date =
        some ( "2020-05-01".toList ) ∧
       (parse_filename_metadata
          ( "(2020-05-01) My Title - (Jane Doe) [finance] [tax].pdf".toList )).author =
        some ( "Jane Doe".toList ) ∧
       (parse_filename_metadata
          ( "(2020-05-01) My Title - (Jane Doe) [finance] [tax].pdf".toList )).tags =
        [ "finance".toList, "tax".toList ] ∧
       (parse_filename_metadata
          ( "(2020-05-01) My Title - (Jane Doe) [finance] [tax].pdf".toList )).title =
        some ( "My Title".toList )) := by
  decide

/-- C2 amended: the parse yields date `2020-05-01 12:00:00`, author
`Jane Doe`, tags `[finance, tax]` and title `My Title - .pdf`; the title
becomes `My Title` only after `clean_title_string`. -/
theorem c2_amended :
    parse_filename_metadata
        ( "(2020-05-01) My Title - (Jane Doe) [finance] [tax].pdf".toList ) =
      { date := some ( "2020-05-01 12:00:00".toList )
        author := some ( "Jane Doe".toList )
        tags := [ "finance".toList, "tax".toList ]
        title := some ( "My Title - .pdf".toList )
        duplicate_authors := [] } ∧
    clean_title_string (some ( "My Title - .pdf".toList )) =
      some ( "My Title".toList ) := by
  decide

/-- C5: the `year_month` recognizer is declared in `date_patterns` but never
consulted, so a filename whose only bracketed token is a year-month token
yields no inferred date at all (the claim and the pattern's own comment say
it should yield the first of the month). -/
theorem c5_year_month_never_applied :
    parse_date_from_parentheses ( "(2020-05) Report.pdf".toList ) = none ∧
    parse_date_from_parentheses ( "(2020.05) Report.pdf".toList ) = none ∧
    parse_date_from_parentheses ( "(2020_05) Report.pdf".toList ) = none := by
  decide

/-- C8 counterexample: the trailing-separator cleanup removes only one
trailing `\s*-\s*` group per call, so `a - -.pdf` shrinks again on the
second application. -/
theorem c8_counterexample :
    clean_trailing_separators ( "a - -.pdf".toList ) = "a -.pdf".toList ∧
    clean_trailing_separators ( "a -.pdf".toList ) = "a.pdf".toList ∧
    clean_trailing_separators
        (clean_trailing_separators ( "a - -.pdf".toList )) ≠
      clean_trailing_separators ( "a - -.pdf".toList ) := by
  decide

/-- C8 amended: the cleanup is idempotent whenever re-splitting its output
recovers the cleaned name and extension and a second name-cleaning pass
leaves the cleaned name fixed (one call removes only one trailing separator
group, so a name ending in several groups shrinks again). -/
theorem c8_amended_conditional_idempotence (f n e : List Char)
    (h1 : splitextFn f = (n, e))
    (h2 : splitextFn (ctsName n ++ e) = (ctsName n, e))
    (h3 : ctsName (ctsName n) = ctsName n) :
    clean_trailing_separators (clean_trailing_separators f) =
      clean_trailing_separators f := by
  have hf : clean_trailing_separators f = ctsName n ++ e := by
    unfold clean_trailing_separators
    rw [h1]
  rw [hf]
  unfold clean_trailing_separators
  rw [h2, h3]

/-- C8 witness: an ordinary filename satisfies the side conditions. -/
theorem c8_amended_witness :
    splitextFn ( "Report.pdf".toList ) = ( "Report".toList, ".pdf".toList ) ∧
    splitextFn (ctsName ( "Report".toList ) ++ ".pdf".toList ) =
      (ctsName ( "Report".toList ), ".pdf".toList ) ∧
    ctsName (ctsName ( "Report".toList )) = ctsName ( "Report".toList ) ∧
    clean_trailing_separators
        (clean_trailing_separators ( "Report.pdf".toList )) =
      clean_trailing_separators ( "Report.pdf".toList ) :=
  ⟨by decide, by decide, by decide,
   c8_amended_conditional_idempotence ( "Report.pdf".toList ) ( "Report".toList )
     ( ".pdf".toList ) (by decide) (by decide) (by decide)⟩

/-- Keys that can occur in the write plan: `/Author` can only occur when the
record's `has_author` flag is false. -/
theorem metadata_write_plan_keys (fn : List Char) (pm : PdfMetadataRow)
    (fm : FilenameMetadata) (k : String) (v : List Char)
    (h : (k, v) ∈ metadata_write_plan fn pm fm) :
    k = "/CreationDate" ∨ (k = "/Author" ∧ pm.has_author = false) ∨
      k = "/Keywords" ∨ k = "/Title" ∨ k = "/Subject" := by
  unfold metadata_write_plan at h
  simp only [List.mem_append] at h
  rcases h with ((h | h) | h) | h
  · cases hd : fm.date with
    | none => simp [hd] at h
    | some d =>
      simp only [hd] at h
      split at h
      · simp at h
      · simp at h
        exact Or.inl h.1
  · cases ha : fm.author with
    | none => simp [ha] at h
    | some a =>
      simp only [ha] at h
      split at h
      · simp at h
      · rename_i hcond
        simp at h hcond
        exact Or.inr (Or.inl ⟨h.1, hcond.2⟩)
  · split at h
    · simp at h
    · simp at h
      exact Or.inr (Or.inr (Or.inl h.1))
  · cases ht : fm.title with
    | none => simp [ht] at h
    | some t =>
      simp only [ht] at h
      split at h
      · simp at h
      · cases hct : clean_title_string (some t) with
        | none => simp [hct] at h
        | some ct =>
          simp only [hct] at h
          split at h
          · simp at h
          · simp at h
            rcases h with h | h
            · exact Or.inr (Or.inr (Or.inr (Or.inl h.1)))
            · exact Or.inr (Or.inr (Or.inr (Or.inr h.1)))

/-- C7: once the record's author field is populated (so `has_author` holds),
the write plan of `metadata_write` never contains `/Author`, whatever the
filename parser inferred. -/
theorem c7_author_never_overwritten (fp : List Char) (rr : ReadResult)
    (fn : List Char) (fm : FilenameMetadata) (a : List Char)
    (h : (extract_pdf_metadata fp rr).author = some a) :
    ∀ v, ( "/Author", v) ∉ metadata_write_plan fn (extract_pdf_metadata fp rr) fm := by
  intro v hv
  have hha : (extract_pdf_metadata fp rr).has_author = true := by
    cases rr <;> simp_all [extract_pdf_metadata, create_error_metadata]
  have := metadata_write_plan_keys fn (extract_pdf_metadata fp rr) fm _ _ hv
  rcases this with h1 | ⟨_, h2⟩ | h1 | h1 | h1
  · exact absurd h1 (by decide)
  · rw [hha] at h2
    exact absurd h2 (by decide)
  · exact absurd h1 (by decide)
  · exact absurd h1 (by decide)
  · exact absurd h1 (by decide)

/-- C7 witness: a record with a populated author field, a filename whose
parse infers a different author, and a plan without `/Author`. -/
theorem c7_witness :
    (extract_pdf_metadata ( "/x/b.pdf".toList )
        (ReadResult.ok
          { title := none, author := some ( "X".toList ), subject := none,
            keywords := none, creationDate := none })).author =
      some ( "X".toList ) ∧
    ¬ ( ( "/Author", "Jane Doe".toList ) ∈
        metadata_write_plan ( "(2020-05-01) T - (Jane Doe).pdf".toList )
          (extract_pdf_metadata ( "/x/b.pdf".toList )
            (ReadResult.ok
              { title := none, author := some ( "X".toList ), subject := none,
                keywords := none, creationDate := none }))
          (parse_filename_metadata ( "(2020-05-01) T - (Jane Doe).pdf".toList ))) :=
  ⟨by decide,
   c7_author_never_overwritten ( "/x/b.pdf".toList )
     (ReadResult.ok
       { title := none, author := some ( "X".toList ), subject := none,
         keywords := none, creationDate := none })
     ( "(2020-05-01) T - (Jane Doe).pdf".toList )
     (parse_filename_metadata ( "(2020-05-01) T - (Jane Doe).pdf".toList ))
     ( "X".toList ) (by decide) ( "Jane Doe".toList )⟩

/-- A sanitized string never contains a comma. -/
theorem comma_not_mem_sanitize (s : List Char) : ',' ∉ sanitize_field_str s := by
  intro h
  rw [sanitize_field_str, List.mem_map] at h
  obtain ⟨a, _, ha⟩ := h
  by_cases hc : a = ','
  · simp [hc] at ha
  · simp [hc] at ha

/-- C9: every string field of the extraction result — filename, filepath,
title, author, subject, tags and the raw date string — has all commas
replaced, in the success row and in every error row. -/
theorem c9_extract_fields_comma_free (fp : List Char) (rr : ReadResult) :
    ',' ∉ (extract_pdf_metadata fp rr).filename ∧
    ',' ∉ (extract_pdf_metadata fp rr).filepath ∧
    (∀ s, (extract_pdf_metadata fp rr).title = some s → ',' ∉ s) ∧
    (∀ s, (extract_pdf_metadata fp rr).author = some s → ',' ∉ s) ∧
    (∀ s, (extract_pdf_metadata fp rr).subject = some s → ',' ∉ s) ∧
    (∀ s, (extract_pdf_metadata fp rr).tags = some s → ',' ∉ s) ∧
    (∀ s, (extract_pdf_metadata fp rr).raw_date_string = some s → ',' ∉ s) := by
  have hfld : ∀ (v : Option (List Char)) (s : List Char),
      (match v with
       | some s0 => if s0 = [] then none else some (sanitize_field_str s0)
       | none => none) = some s → ',' ∉ s := by
    intro v s hv
    cases v with
    | none => simp at hv
    | some s0 =>
      simp only [] at hv
      split at hv
      · simp at hv
      · simp at hv
        rw [← hv]
        exact comma_not_mem_sanitize s0
  cases rr with
  | openErr msg =>
    refine ⟨comma_not_mem_sanitize _, comma_not_mem_sanitize _, ?_, ?_, ?_, ?_, ?_⟩ <;>
      intro s hs <;> simp [extract_pdf_metadata, create_error_metadata] at hs
  | encrypted =>
    refine ⟨comma_not_mem_sanitize _, comma_not_mem_sanitize _, ?_, ?_, ?_, ?_, ?_⟩ <;>
      intro s hs <;> simp [extract_pdf_metadata, create_error_metadata] at hs
  | metaErr msg =>
    refine ⟨comma_not_mem_sanitize _, comma_not_mem_sanitize _, ?_, ?_, ?_, ?_, ?_⟩ <;>
      intro s hs <;> simp [extract_pdf_metadata, create_error_metadata] at hs
  | ok info =>
    refine ⟨comma_not_mem_sanitize _, comma_not_mem_sanitize _,
      fun s hs => hfld info.title s hs, fun s hs => hfld info.author s hs,
      fun s hs => hfld info.subject s hs, fun s hs => hfld info.keywords s hs, ?_⟩
    intro s hs
    simp only [extract_pdf_metadata, sanitize_field] at hs
    cases hcd : info.creationDate with
    | none => rw [hcd] at hs; simp at hs
    | some r =>
      rw [hcd] at hs
      simp at hs
      rw [← hs]
      exact comma_not_mem_sanitize r

/-- C9 witness: a readable file whose raw fields all contain commas yields a
row whose fields are comma-free. -/
theorem c9_witness :
    ',' ∉ (extract_pdf_metadata ( "/a,b/c,d.pdf".toList )
      (ReadResult.ok
        { title := some ( "t,1".toList ), author := some ( "a,2".toList ),
          subject := some ( "s,3".toList ), keywords := some ( "k,4".toList ),
          creationDate := some ( "D:2020,bad".toList ) })).filename ∧
    (∀ s, (extract_pdf_metadata ( "/a,b/c,d.pdf".toList )
      (ReadResult.ok
        { title := some ( "t,1".toList ), author := some ( "a,2".toList ),
          subject := some ( "s,3".toList ), keywords := some ( "k,4".toList ),
          creationDate := some ( "D:2020,bad".toList ) })).title = some s → ',' ∉ s) ∧
    (extract_pdf_metadata ( "/a,b/c,d.pdf".toList )
      (ReadResult.ok
        { title := some ( "t,1".toList ), author := some ( "a,2".toList ),
          subject := some ( "s,3".toList ), keywords := some ( "k,4".toList ),
          creationDate := some ( "D:2020,bad".toList ) })).title =
      some ( "t;1".toList ) :=
  ⟨(c9_extract_fields_comma_free ( "/a,b/c,d.pdf".toList )
      (ReadResult.ok
        { title := some ( "t,1".toList ), author := some ( "a,2".toList ),
          subject := some ( "s,3".toList ), keywords := some ( "k,4".toList ),
          creationDate := some ( "D:2020,bad".toList ) })).1,
   (c9_extract_fields_comma_free ( "/a,b/c,d.pdf".toList )
      (ReadResult.ok
        { title := some ( "t,1".toList ), author := some ( "a,2".toList ),
          subject := some ( "s,3".toList ), keywords := some ( "k,4".toList ),
          creationDate := some ( "D:2020,bad".toList ) })).2.2.1,
   by decide⟩

/-- `add_page` in a loop appends the page list. -/
theorem foldl_append_pages (ps acc : List Nat) :
    ps.foldl (fun a p => a ++ [p]) acc = acc ++ ps := by
  induction ps generalizing acc with
  | nil => simp
  | cons p ps ih => simp [ih]

/-- Folding the update-lookup over a list from an arbitrary accumulator. -/
theorem metaGet_foldl (l : List (String × List Char)) (k : String)
    (a : Option (List Char)) :
    l.foldl (fun acc p => if p.1 = k then some p.2 else acc) a =
      match metaGet l k with
      | some v => some v
      | none => a := by
  induction l generalizing a with
  | nil => simp [metaGet]
  | cons p l ih =>
    have hm : metaGet (p :: l) k =
        l.foldl (fun acc q => if q.1 = k then some q.2 else acc)
          (if p.1 = k then some p.2 else none) := by
      simp [metaGet]
    rw [List.foldl_cons, ih, hm, ih]
    cases hgl : metaGet l k <;> by_cases hp : p.1 = k <;> simp [hp]

/-- Later bindings win across an append. -/
theorem metaGet_append (l1 l2 : List (String × List Char)) (k : String) :
    metaGet (l1 ++ l2) k =
      match metaGet l2 k with
      | some v => some v
      | none => metaGet l1 k := by
  rw [metaGet, List.foldl_append]
  exact metaGet_foldl l2 k _

/-- C10: the rewrite keeps every page and, for every key the plan does not
bind, the prior metadata value; keys the plan binds take the planned value. -/
theorem c10_rewrite_preserves_frame (reader : PdfDoc)
    (plan : List (String × List Char)) :
    (metadata_write_rewrite reader plan).pages = reader.pages ∧
    (∀ k, metaGet plan k = none →
      metaGet (metadata_write_rewrite reader plan).meta k = metaGet reader.meta k) ∧
    (∀ k v, metaGet plan k = some v →
      metaGet (metadata_write_rewrite reader plan).meta k = some v) := by
  refine ⟨?_, ?_, ?_⟩
  · unfold metadata_write_rewrite add_pages add_metadata
    split <;> simp [foldl_append_pages]
  · intro k hk
    unfold metadata_write_rewrite add_pages add_metadata
    split
    · rename_i hme
      simp only [metaGet_append, hk, hme]
    · simp [metaGet_append, hk]
  · intro k v hk
    unfold metadata_write_rewrite add_pages add_metadata
    split <;> simp [metaGet_append, hk]

/-- C10 witness: a two-page document with one untouched key and one planned
key. -/
theorem c10_witness :
    (metadata_write_rewrite
        (PdfDoc.mk [1, 2] [( "/Author", "X".toList ), ( "/Producer", "P".toList )])
        [( "/Author", "Y".toList )]).pages = [1, 2] ∧
    metaGet (metadata_write_rewrite
        (PdfDoc.mk [1, 2] [( "/Author", "X".toList ), ( "/Producer", "P".toList )])
        [( "/Author", "Y".toList )]).meta "/Producer" =
      metaGet [( "/Author", "X".toList ), ( "/Producer", "P".toList )] "/Producer" ∧
    metaGet (metadata_write_rewrite
        (PdfDoc.mk [1, 2] [( "/Author", "X".toList ), ( "/Producer", "P".toList )])
        [( "/Author", "Y".toList )]).meta "/Author" = some ( "Y".toList ) :=
  ⟨(c10_rewrite_preserves_frame _ _).1,
   (c10_rewrite_preserves_frame _ _).2.1 "/Producer" (by decide),
   (c10_rewrite_preserves_frame _ _).2.2 "/Author" ( "Y".toList ) (by decide)⟩

/-- Every element a findall driver returns is a capture of its matcher. -/
theorem mem_findallAux {α : Type} (m : List Char → Option (α × List Char)) :
    ∀ (fuel : Nat) (cs : List Char) (x : α),
      x ∈ findallAux m fuel cs → ∃ s r, m s = some (x, r) := by
  intro fuel
  induction fuel with
  | zero => intro cs x h; simp [findallAux] at h
  | succ n ih =>
    intro cs x h
    cases cs with
    | nil => simp [findallAux] at h
    | cons c cs =>
      rw [findallAux] at h
      cases hm : m (c :: cs) with
      | some ar =>
        rw [hm] at h
        rcases List.mem_cons.mp h with h | h
        · exact ⟨c :: cs, ar.2, by rw [hm, h]⟩
        · exact ih ar.2 x h
      | none =>
        rw [hm] at h
        exact ih cs x h

theorem mem_findall {α : Type} (m : List Char → Option (α × List Char))
    (cs : List Char) (x : α) (h : x ∈ findall m cs) : ∃ s r, m s = some (x, r) :=
  mem_findallAux m cs.length cs x h

/-- The analogue for the position-aware driver. -/
theorem mem_findallPosAux {α : Type}
    (m : Bool → List Char → Option (α × List Char)) :
    ∀ (fuel : Nat) (b : Bool) (cs : List Char) (x : α),
      x ∈ findallPosAux m b fuel cs → ∃ b' s r, m b' s = some (x, r) := by
  intro fuel
  induction fuel with
  | zero => intro b cs x h; simp [findallPosAux] at h
  | succ n ih =>
    intro b cs x h
    cases cs with
    | nil => simp [findallPosAux] at h
    | cons c cs =>
      rw [findallPosAux] at h
      cases hm : m b (c :: cs) with
      | some ar =>
        rw [hm] at h
        rcases List.mem_cons.mp h with h | h
        · exact ⟨b, c :: cs, ar.2, by rw [hm, h]⟩
        · exact ih false ar.2 x h
      | none =>
        rw [hm] at h
        exact ih false cs x h

theorem mem_findallPos {α : Type} (m : Bool → List Char → Option (α × List Char))
    (cs : List Char) (x : α) (h : x ∈ findallPos m cs) :
    ∃ b s r, m b s = some (x, r) :=
  mem_findallPosAux m cs.length true cs x h

/-- A successful `(\d{1,2})` step came from its continuation. -/
theorem d12cont_inv {α : Type} (k : List Char → List Char → Option α)
    (cs : List Char) (res : α) (h : d12cont k cs = some res) :
    ∃ l r, k l r = some res := by
  cases cs with
  | nil => simp [d12cont] at h
  | cons a t =>
    cases t with
    | nil =>
      rw [d12cont] at h
      split at h
      · exact ⟨[a], [], h⟩
      · simp at h
    | cons b r =>
      rw [d12cont] at h
      split at h
      · split at h
        · split at h
          · rename_i res' heq
            injection h with h2
            exact ⟨[a, b], r, by rw [heq, h2]⟩
          · exact ⟨[a], b :: r, h⟩
        · exact ⟨[a], b :: r, h⟩
      · simp at h

/-- Candidates of the first embedded pattern carry a nonempty removal list. -/
theorem m_embedA_snd_ne_nil (s : List Char) (d : List Char)
    (ts : List (List Char)) (r : List Char)
    (h : m_embedA s = some ((d, ts), r)) : ts ≠ [] := by
  unfold m_embedA at h
  simp only [bind, Option.bind_eq_some] at h
  obtain ⟨⟨y, r1⟩, _, h⟩ := h
  rcases hsp1 : List.span isWs r1 with ⟨w1, r2⟩
  rw [hsp1] at h
  simp only [bind, Option.bind_eq_some] at h
  obtain ⟨r3, _, h⟩ := h
  rcases hsp2 : List.span isWs r3 with ⟨w2, r4⟩
  rw [hsp2] at h
  obtain ⟨mo, r5, h⟩ := d12cont_inv _ _ _ h
  simp only at h
  rcases hsp3 : List.span isWs r5 with ⟨w3, r6⟩
  rw [hsp3] at h
  simp only [bind, Option.bind_eq_some] at h
  obtain ⟨r7, _, h⟩ := h
  rcases hsp4 : List.span isWs r7 with ⟨w4, r8⟩
  rw [hsp4] at h
  obtain ⟨dd, r9, h⟩ := d12cont_inv _ _ _ h
  simp only at h
  rcases hsp5 : List.span isWs r9 with ⟨w5, r10⟩
  rw [hsp5] at h
  simp only [bind, Option.bind_eq_some] at h
  obtain ⟨r11, _, h⟩ := h
  rcases hsp6 : List.span isWs r11 with ⟨w6, r12⟩
  rw [hsp6] at h
  simp only [Option.some.injEq, Prod.mk.injEq] at h
  obtain ⟨⟨_, hts⟩, _⟩ := h
  rw [← hts]
  simp

/-- Candidates of the expense pattern carry a nonempty removal list. -/
theorem m_embedB_snd_ne_nil (yl : Option (List Char)) (s : List Char)
    (d : List Char) (ts : List (List Char)) (r : List Char)
    (h : m_embedB yl s = some ((d, ts), r)) : ts ≠ [] := by
  unfold m_embedB at h
  rcases hsp : List.span isWs s with ⟨w, r0⟩
  rw [hsp] at h
  simp only [bind, Option.bind_eq_some] at h
  obtain ⟨r1, _, h⟩ := h
  obtain ⟨⟨a, r2⟩, _, h⟩ := h
  obtain ⟨r3, _, h⟩ := h
  obtain ⟨⟨b, r4⟩, _, h⟩ := h
  obtain ⟨⟨c, r5⟩, _, h⟩ := h
  obtain ⟨r6, _, h⟩ := h
  rcases hsp2 : List.span isDig r6 with ⟨ds, r7⟩
  rw [hsp2] at h
  split at h
  · simp at h
  · simp only [bind, Option.bind_eq_some] at h
    obtain ⟨r8, _, h⟩ := h
    simp only [Option.some.injEq, Prod.mk.injEq] at h
    obtain ⟨⟨_, hts⟩, _⟩ := h
    rw [← hts]
    cases yl <;> simp

/-- Candidates of the core of the third pattern carry a nonempty removal
list. -/
theorem embedCcore_snd_ne_nil (anchor s : List Char) (d : List Char)
    (ts : List (List Char)) (r : List Char)
    (h : embedCcore anchor s = some ((d, ts), r)) : ts ≠ [] := by
  unfold embedCcore at h
  simp only [bind, Option.bind_eq_some] at h
  obtain ⟨⟨y, r1⟩, _, h⟩ := h
  rcases hsp1 : List.span isWs r1 with ⟨w1, r2⟩
  rw [hsp1] at h
  simp only [bind, Option.bind_eq_some] at h
  obtain ⟨r3, _, h⟩ := h
  rcases hsp2 : List.span isWs r3 with ⟨w2, r4⟩
  rw [hsp2] at h
  obtain ⟨mo, r5, h⟩ := d12cont_inv _ _ _ h
  simp only at h
  rcases hsp3 : List.span isWs r5 with ⟨w3, r6⟩
  rw [hsp3] at h
  simp only [bind, Option.bind_eq_some] at h
  obtain ⟨r7, _, h⟩ := h
  rcases hsp4 : List.span isWs r7 with ⟨w4, r8⟩
  rw [hsp4] at h
  obtain ⟨dd, r9, h⟩ := d12cont_inv _ _ _ h
  simp only at h
  rcases hsp5 : List.span isWs r9 with ⟨wt, rt⟩
  rw [hsp5] at h
  split at h
  · split at h
    · simp only [Option.some.injEq, Prod.mk.injEq] at h
      obtain ⟨⟨_, hts⟩, _⟩ := h
      rw [← hts]
      simp
    · simp at h
  · simp only [Option.some.injEq, Prod.mk.injEq] at h
    obtain ⟨⟨_, hts⟩, _⟩ := h
    rw [← hts]
    simp

theorem m_embedC_ws_snd_ne_nil (s : List Char) (d : List Char)
    (ts : List (List Char)) (r : List Char)
    (h : m_embedC_ws s = some ((d, ts), r)) : ts ≠ [] := by
  unfold m_embedC_ws at h
  split at h
  · simp at h
  · exact embedCcore_snd_ne_nil _ _ d ts r h

theorem m_embedC_snd_ne_nil (b : Bool) (s : List Char) (d : List Char)
    (ts : List (List Char)) (r : List Char)
    (h : m_embedC b s = some ((d, ts), r)) : ts ≠ [] := by
  unfold m_embedC at h
  split at h
  · split at h
    · rename_i res heq
      injection h with h2
      rw [h2] at heq
      exact embedCcore_snd_ne_nil [] s d ts r heq
    · exact m_embedC_ws_snd_ne_nil s d ts r h
  · exact m_embedC_ws_snd_ne_nil s d ts r h

/-- Every embedded-date candidate carries a nonempty removal list. -/
theorem embCandidates_snd_ne_nil (w : List Char) (yl : Option (List Char))
    (d : List Char) (ts : List (List Char))
    (h : (d, ts) ∈ embCandidates w yl) : ts ≠ [] := by
  unfold embCandidates at h
  simp only [List.mem_append] at h
  rcases h with (h | h) | h
  · obtain ⟨s, r, hm⟩ := mem_findall _ _ _ h
    exact m_embedA_snd_ne_nil s d ts r hm
  · obtain ⟨s, r, hm⟩ := mem_findall _ _ _ h
    exact m_embedB_snd_ne_nil yl s d ts r hm
  · obtain ⟨b, s, r, hm⟩ := mem_findallPos _ _ _ h
    exact m_embedC_snd_ne_nil b s d ts r hm

/-- C6 amended: when the filename carries a leading date token, an embedded
candidate found by `find_embedded_dates` (which already guarantees it differs
from the leading date) is proposed if and only if its representation is also
strictly longer; a differing candidate of equal length is never proposed. -/
theorem c6_amended_proposed_iff_differs_and_longer (f e d : List Char)
    (ts : List (List Char))
    (h1 : (matchLeadDate f).map (·.1) = some e)
    (h2 : find_embedded_dates f (some e) = some (d, ts)) :
    d ≠ e ∧ ((outlier_embedded_step f).isSome = true ↔ e.length < d.length) := by
  have h2' := h2
  unfold find_embedded_dates at h2'
  simp only at h2'
  have hp := List.find?_some h2'
  have hmem := List.mem_of_find?_eq_some h2'
  simp only [Bool.and_eq_true, decide_eq_true_eq] at hp
  obtain ⟨hval, hne⟩ := hp
  have hts : ts ≠ [] := embCandidates_snd_ne_nil _ _ _ _ hmem
  have hd : d ≠ [] := by
    intro hnil
    rw [hnil] at hval
    exact absurd hval (by decide)
  refine ⟨hne, ?_⟩
  unfold outlier_embedded_step
  rw [h1]
  simp only [h2]
  by_cases hlen : e.length < d.length <;> simp [hd, hts, hlen]

/-- C6 counterexample: a full-precision leading date and a different
full-precision embedded date — the candidate differs, yet no rename is
proposed because it is not longer than the leading date. -/
theorem c6_counterexample :
    (matchLeadDate
        ( "(1991-01-23) Report 1991 - 01 - 24 - Scan.pdf".toList )).map (·.1) =
      some ( "1991-01-23".toList ) ∧
    find_embedded_dates
        ( "(1991-01-23) Report 1991 - 01 - 24 - Scan.pdf".toList )
        (some ( "1991-01-23".toList )) =
      some ( "1991-01-24".toList, [ "1991 - 01 - 24 - ".toList ]) ∧
    ( "1991-01-24".toList ≠ "1991-01-23".toList ) ∧
    outlier_embedded_step
        ( "(1991-01-23) Report 1991 - 01 - 24 - Scan.pdf".toList ) = none := by
  decide

/-- C6 witness: a year-only leading date with a longer embedded candidate is
proposed. -/
theorem c6_amended_witness :
    (matchLeadDate
        ( "(1991) Report 1991 - 01 - 23 - Scan.pdf".toList )).map (·.1) =
      some ( "1991".toList ) ∧
    find_embedded_dates ( "(1991) Report 1991 - 01 - 23 - Scan.pdf".toList )
        (some ( "1991".toList )) =
      some ( "1991-01-23".toList, [ "1991 - 01 - 23 - ".toList ]) ∧
    ( "1991-01-23".toList ≠ "1991".toList ∧
      ((outlier_embedded_step
          ( "(1991) Report 1991 - 01 - 23 - Scan.pdf".toList )).isSome = true ↔
        ( "1991".toList ).length < ( "1991-01-23".toList ).length)) :=
  ⟨by decide, by decide,
   c6_amended_proposed_iff_differs_and_longer
     ( "(1991) Report 1991 - 01 - 23 - Scan.pdf".toList ) ( "1991".toList )
     ( "1991-01-23".toList ) [ "1991 - 01 - 23 - ".toList ]
     (by decide) (by decide)⟩

/-! ### Properties of Python `min` over validated date strings -/

theorem pyMinStep_cases (a b : List Char) : pyMinStep a b = a ∨ pyMinStep a b = b := by
  unfold pyMinStep
  split
  · exact Or.inr rfl
  · exact Or.inl rfl

theorem pyMin_mem : ∀ (xs : List (List Char)) (x : List Char), pyMin x xs ∈ x :: xs := by
  intro xs
  induction xs with
  | nil => intro x; simp [pyMin]
  | cons b l ih =>
    intro x
    have h0 : pyMin x (b :: l) = pyMin (pyMinStep x b) l := by simp [pyMin]
    rw [h0]
    rcases List.mem_cons.mp (ih (pyMinStep x b)) with h | h
    · rcases pyMinStep_cases x b with h2 | h2
      · rw [h, h2]; exact List.mem_cons_self _ _
      · rw [h, h2]
        exact List.mem_cons_of_mem _ (List.mem_cons_self _ _)
    · exact List.mem_cons_of_mem _ (List.mem_cons_of_mem _ h)

/-- A string that `parseDate10` accepts has the exact ten-character shape. -/
theorem parseDate10_shape (s : List Char) (y m d : Nat)
    (h : parseDate10 s = some (y, m, d)) :
    ∃ a1 a2 a3 a4 m1 m2 d1 d2,
      s = [a1, a2, a3, a4, '-', m1, m2, '-', d1, d2] ∧
      isDig a1 = true ∧ isDig a2 = true ∧ isDig a3 = true ∧ isDig a4 = true ∧
      isDig m1 = true ∧ isDig m2 = true ∧ isDig d1 = true ∧ isDig d2 = true ∧
      y = dv a1 * 1000 + dv a2 * 100 + dv a3 * 10 + dv a4 ∧
      m = dv m1 * 10 + dv m2 ∧ d = dv d1 * 10 + dv d2 := by
  rcases s with _ | ⟨a1, _ | ⟨a2, _ | ⟨a3, _ | ⟨a4, _ | ⟨h1, _ | ⟨m1, _ | ⟨m2, _ |
    ⟨h2, _ | ⟨d1, _ | ⟨d2, _ | ⟨z, s⟩⟩⟩⟩⟩⟩⟩⟩⟩⟩⟩
  case cons.cons.cons.cons.cons.cons.cons.cons.cons.cons.nil =>
    simp only [parseDate10] at h
    split at h
    · rename_i hcond
      simp only [Bool.and_eq_true, decide_eq_true_eq] at hcond
      obtain ⟨⟨⟨⟨⟨⟨⟨⟨⟨ha1, ha2⟩, ha3⟩, ha4⟩, hh1⟩, hm1⟩, hm2⟩, hh2⟩, hd1⟩, hd2⟩ := hcond
      injection h with h
      injection h with hy h
      injection h with hm hd
      subst hh1 hh2
      exact ⟨a1, a2, a3, a4, m1, m2, d1, d2, rfl, ha1, ha2, ha3, ha4, hm1, hm2,
        hd1, hd2, hy.symm, hm.symm, hd.symm⟩
    · simp at h
  all_goals simp [parseDate10] at h

theorem isDig_bounds (c : Char) (h : isDig c = true) :
    48 ≤ c.toNat ∧ c.toNat ≤ 57 := by
  simpa [isDig, Bool.and_eq_true, decide_eq_true_eq] using h

theorem isValidDate_parse (s : List Char) (hs : isValidDate s = true) :
    ∃ y m d, parseDate10 s = some (y, m, d) := by
  unfold isValidDate at hs
  cases hp : parseDate10 s with
  | none => rw [hp] at hs; simp at hs
  | some ymd =>
    obtain ⟨y, m, d⟩ := ymd
    exact ⟨y, m, d, rfl⟩

theorem strLt_cons (a b : Char) (as bs : List Char) :
    strLt (a :: as) (b :: bs) =
      if a.toNat < b.toNat then true
      else if b.toNat < a.toNat then false
      else strLt as bs := rfl

theorem strLt_nil : strLt ([] : List Char) [] = false := rfl

/-- Python string `<` agrees with calendar order on validated date strings
(both are zero-padded `YYYY-MM-DD`). -/
theorem strLt_iff_dateNum (s t : List Char)
    (hs : isValidDate s = true) (ht : isValidDate t = true) :
    strLt s t = true ↔ dateNum s < dateNum t := by
  obtain ⟨y1, m1, d1, hp1⟩ := isValidDate_parse s hs
  obtain ⟨y2, m2, d2, hp2⟩ := isValidDate_parse t ht
  obtain ⟨a1, a2, a3, a4, b1, b2, c1, c2, hseq, ha1, ha2, ha3, ha4, hb1, hb2,
    hc1, hc2, hy1, hm1, hd1⟩ := parseDate10_shape s y1 m1 d1 hp1
  obtain ⟨e1, e2, e3, e4, f1, f2, g1, g2, hteq, he1, he2, he3, he4, hf1, hf2,
    hg1, hg2, hy2, hm2, hd2⟩ := parseDate10_shape t y2 m2 d2 hp2
  have hn1 : dateNum s = y1 * 10000 + m1 * 100 + d1 := by
    unfold dateNum; rw [hp1]
  have hn2 : dateNum t = y2 * 10000 + m2 * 100 + d2 := by
    unfold dateNum; rw [hp2]
  obtain ⟨ha1l, ha1u⟩ := isDig_bounds _ ha1
  obtain ⟨ha2l, ha2u⟩ := isDig_bounds _ ha2
  obtain ⟨ha3l, ha3u⟩ := isDig_bounds _ ha3
  obtain ⟨ha4l, ha4u⟩ := isDig_bounds _ ha4
  obtain ⟨hb1l, hb1u⟩ := isDig_bounds _ hb1
  obtain ⟨hb2l, hb2u⟩ := isDig_bounds _ hb2
  obtain ⟨hc1l, hc1u⟩ := isDig_bounds _ hc1
  obtain ⟨hc2l, hc2u⟩ := isDig_bounds _ hc2
  obtain ⟨he1l, he1u⟩ := isDig_bounds _ he1
  obtain ⟨he2l, he2u⟩ := isDig_bounds _ he2
  obtain ⟨he3l, he3u⟩ := isDig_bounds _ he3
  obtain ⟨he4l, he4u⟩ := isDig_bounds _ he4
  obtain ⟨hf1l, hf1u⟩ := isDig_bounds _ hf1
  obtain ⟨hf2l, hf2u⟩ := isDig_bounds _ hf2
  obtain ⟨hg1l, hg1u⟩ := isDig_bounds _ hg1
  obtain ⟨hg2l, hg2u⟩ := isDig_bounds _ hg2
  subst hseq hteq hy1 hm1 hd1 hy2 hm2 hd2
  rw [hn1, hn2]
  simp only [dv]
  rw [strLt_cons]
  by_cases q1 : Char.toNat a1 < Char.toNat e1
  · rw [if_pos q1]
    exact iff_of_true rfl (by omega)
  rw [if_neg q1]
  by_cases r1 : Char.toNat e1 < Char.toNat a1
  · rw [if_pos r1]
    exact iff_of_false (by simp) (by omega)
  rw [if_neg r1]
  rw [strLt_cons]
  by_cases q2 : Char.toNat a2 < Char.toNat e2
  · rw [if_pos q2]
    exact iff_of_true rfl (by omega)
  rw [if_neg q2]
  by_cases r2 : Char.toNat e2 < Char.toNat a2
  · rw [if_pos r2]
    exact iff_of_false (by simp) (by omega)
  rw [if_neg r2]
  rw [strLt_cons]
  by_cases q3 : Char.toNat a3 < Char.toNat e3
  · rw [if_pos q3]
    exact iff_of_true rfl (by omega)
  rw [if_neg q3]
  by_cases r3 : Char.toNat e3 < Char.toNat a3
  · rw [if_pos r3]
    exact iff_of_false (by simp) (by omega)
  rw [if_neg r3]
  rw [strLt_cons]
  by_cases q4 : Char.toNat a4 < Char.toNat e4
  · rw [if_pos q4]
    exact iff_of_true rfl (by omega)
  rw [if_neg q4]
  by_cases r4 : Char.toNat e4 < Char.toNat a4
  · rw [if_pos r4]
    exact iff_of_false (by simp) (by omega)
  rw [if_neg r4]
  rw [strLt_cons]
  rw [if_neg (Nat.lt_irrefl _)]
  rw [if_neg (Nat.lt_irrefl _)]
  rw [strLt_cons]
  by_cases q5 : Char.toNat b1 < Char.toNat f1
  · rw [if_pos q5]
    exact iff_of_true rfl (by omega)
  rw [if_neg q5]
  by_cases r5 : Char.toNat f1 < Char.toNat b1
  · rw [if_pos r5]
    exact iff_of_false (by simp) (by omega)
  rw [if_neg r5]
  rw [strLt_cons]
  by_cases q6 : Char.toNat b2 < Char.toNat f2
  · rw [if_pos q6]
    exact iff_of_true rfl (by omega)
  rw [if_neg q6]
  by_cases r6 : Char.toNat f2 < Char.toNat b2
  · rw [if_pos r6]
    exact iff_of_false (by simp) (by omega)
  rw [if_neg r6]
  rw [strLt_cons]
  rw [if_neg (Nat.lt_irrefl _)]
  rw [if_neg (Nat.lt_irrefl _)]
  rw [strLt_cons]
  by_cases q7 : Char.toNat c1 < Char.toNat g1
  · rw [if_pos q7]
    exact iff_of_true rfl (by omega)
  rw [if_neg q7]
  by_cases r7 : Char.toNat g1 < Char.toNat c1
  · rw [if_pos r7]
    exact iff_of_false (by simp) (by omega)
  rw [if_neg r7]
  rw [strLt_cons]
  by_cases q8 : Char.toNat c2 < Char.toNat g2
  · rw [if_pos q8]
    exact iff_of_true rfl (by omega)
  rw [if_neg q8]
  by_cases r8 : Char.toNat g2 < Char.toNat c2
  · rw [if_pos r8]
    exact iff_of_false (by simp) (by omega)
  rw [if_neg r8]
  rw [strLt_nil]
  exact iff_of_false (by simp) (by omega)

/-- `min` over a list of validated date strings is a calendar-minimal
element. -/
theorem pyMin_le : ∀ (xs : List (List Char)) (x : List Char),
    isValidDate x = true → (∀ y ∈ xs, isValidDate y = true) →
    isValidDate (pyMin x xs) = true ∧
      ∀ y ∈ x :: xs, dateNum (pyMin x xs) ≤ dateNum y := by
  intro xs
  induction xs with
  | nil =>
    intro x hx _
    refine ⟨by simpa [pyMin] using hx, ?_⟩
    intro y hy
    simp at hy
    rw [hy]
    simp [pyMin]
  | cons b l ih =>
    intro x hx hall
    have hb := hall b (List.mem_cons_self _ _)
    have hsv : isValidDate (pyMinStep x b) = true := by
      rcases pyMinStep_cases x b with h | h <;> rw [h] <;> assumption
    have hsx : dateNum (pyMinStep x b) ≤ dateNum x := by
      unfold pyMinStep
      split
      · rename_i hlt
        exact le_of_lt ((strLt_iff_dateNum b x hb hx).mp hlt)
      · exact le_refl _
    have hsb : dateNum (pyMinStep x b) ≤ dateNum b := by
      unfold pyMinStep
      split
      · exact le_refl _
      · rename_i hlt
        have h2 : ¬ dateNum b < dateNum x := fun hc =>
          hlt ((strLt_iff_dateNum b x hb hx).mpr hc)
        omega
    obtain ⟨hv, hle⟩ := ih (pyMinStep x b) hsv
      (fun y hy => hall y (List.mem_cons_of_mem _ hy))
    have h0 : pyMin x (b :: l) = pyMin (pyMinStep x b) l := by simp [pyMin]
    refine ⟨h0 ▸ hv, ?_⟩
    intro y hy
    rw [h0]
    rcases List.mem_cons.mp hy with rfl | hy2
    · exact le_trans (hle _ (List.mem_cons_self _ _)) hsx
    · rcases List.mem_cons.mp hy2 with rfl | hy3
      · exact le_trans (hle _ (List.mem_cons_self _ _)) hsb
      · exact hle y (List.mem_cons_of_mem _ hy3)

/-! ### The spec's parametric input `"(" + d + ") anything.ext"` -/

/-- The digit character of a value below ten. -/
def dC : Nat → Char
  | 0 => '0'
  | 1 => '1'
  | 2 => '2'
  | 3 => '3'
  | 4 => '4'
  | 5 => '5'
  | 6 => '6'
  | 7 => '7'
  | 8 => '8'
  | _ => '9'

/-- Two-digit zero-padded rendering. -/
def pad2 (n : Nat) : List Char := [dC (n / 10 % 10), dC (n % 10)]

/-- Four-digit zero-padded rendering. -/
def pad4 (n : Nat) : List Char :=
  [dC (n / 1000 % 10), dC (n / 100 % 10), dC (n / 10 % 10), dC (n % 10)]

/-- The canonical ISO rendering `YYYY-MM-DD` of a calendar date. -/
def isoDate (y m d : Nat) : List Char :=
  pad4 y ++ '-' :: (pad2 m ++ '-' :: pad2 d)

/-- The spec's test filename around an arbitrary valid ISO date. -/
def c3_filename (y m d : Nat) : List Char :=
  '(' :: (isoDate y m d ++ ')' :: " anything.ext".toList )

theorem dC_spec (k : Nat) (h : k < 10) : isDig (dC k) = true ∧ dv (dC k) = k := by
  interval_cases k <;> exact ⟨by decide, by decide⟩

theorem daysInMonth_le (y m : Nat) : daysInMonth y m ≤ 31 := by
  unfold daysInMonth
  split_ifs <;> omega

theorem validYMD_bounds (y m d : Nat) (h : validYMD y m d = true) :
    y ≤ 9999 ∧ m ≤ 99 ∧ d ≤ 99 := by
  have hdm := daysInMonth_le y m
  simp only [validYMD, Bool.and_eq_true, decide_eq_true_eq] at h
  omega

theorem parseDate10_isoDate (y m d : Nat)
    (hy : y ≤ 9999) (hm : m ≤ 99) (hd : d ≤ 99) :
    parseDate10 (isoDate y m d) = some (y, m, d) := by
  have h1 := dC_spec (y / 1000 % 10) (by omega)
  have h2 := dC_spec (y / 100 % 10) (by omega)
  have h3 := dC_spec (y / 10 % 10) (by omega)
  have h4 := dC_spec (y % 10) (by omega)
  have h5 := dC_spec (m / 10 % 10) (by omega)
  have h6 := dC_spec (m % 10) (by omega)
  have h7 := dC_spec (d / 10 % 10) (by omega)
  have h8 := dC_spec (d % 10) (by omega)
  show parseDate10 [dC (y / 1000 % 10), dC (y / 100 % 10), dC (y / 10 % 10),
    dC (y % 10), '-', dC (m / 10 % 10), dC (m % 10), '-', dC (d / 10 % 10),
    dC (d % 10)] = some (y, m, d)
  simp only [parseDate10]
  rw [if_pos (by simp [h1.1, h2.1, h3.1, h4.1, h5.1, h6.1, h7.1, h8.1])]
  have e1 : dv (dC (y / 1000 % 10)) * 1000 + dv (dC (y / 100 % 10)) * 100 +
      dv (dC (y / 10 % 10)) * 10 + dv (dC (y % 10)) = y := by
    rw [h1.2, h2.2, h3.2, h4.2]; omega
  have e2 : dv (dC (m / 10 % 10)) * 10 + dv (dC (m % 10)) = m := by
    rw [h5.2, h6.2]; omega
  have e3 : dv (dC (d / 10 % 10)) * 10 + dv (dC (d % 10)) = d := by
    rw [h7.2, h8.2]; omega
  rw [e1, e2, e3]

theorem isValidDate_isoDate (y m d : Nat) (h : validYMD y m d = true) :
    isValidDate (isoDate y m d) = true := by
  obtain ⟨hy, hm, hd⟩ := validYMD_bounds y m d h
  unfold isValidDate
  rw [parseDate10_isoDate y m d hy hm hd]
  exact h

/-- Every candidate the first pass collects passed calendar validation. -/
theorem full_precision_dates_valid (f : List Char) :
    ∀ e ∈ full_precision_dates f, isValidDate e = true := by
  intro e he
  unfold full_precision_dates at he
  simp only [List.mem_append] at he
  rcases he with he | he
  · rw [List.mem_filterMap] at he
    obtain ⟨a, -, ha⟩ := he
    split at ha <;> split at ha <;>
      first
        | (injection ha with ha; rw [← ha]; assumption)
        | simp at ha
  · rw [List.mem_filterMap] at he
    obtain ⟨a, -, ha⟩ := he
    split at ha
    · injection ha with ha
      rw [← ha]
      assumption
    · simp at ha

theorem takeDigits_append (l r : List Char) (h : ∀ c ∈ l, isDig c = true) :
    takeDigits l.length (l ++ r) = some (l, r) := by
  induction l with
  | nil => rfl
  | cons c l ih =>
    have hc := h c (List.mem_cons_self _ _)
    simp only [List.length_cons, List.cons_append, takeDigits, hc, if_true,
      List.append_eq, ih (fun x hx => h x (List.mem_cons_of_mem _ hx))]

theorem takeDigits_fail (k : Nat) (l : List Char) (c : Char) (r : List Char)
    (hlen : l.length < k) (hc : isDig c = false) :
    takeDigits k (l ++ c :: r) = none := by
  induction l generalizing k with
  | nil =>
    cases k with
    | zero => omega
    | succ n => simp [takeDigits, hc]
  | cons a l ih =>
    cases k with
    | zero => omega
    | succ n =>
      simp only [List.cons_append, takeDigits, List.append_eq]
      by_cases ha : isDig a = true
      · simp only [ha, if_true]
        rw [ih n (by simp at hlen; omega)]
      · simp [ha]



theorem findallAux_nil {α : Type} (m : List Char → Option (α × List Char)) :
    ∀ (fuel : Nat) (cs : List Char), (∀ n, m (cs.drop n) = none) →
      findallAux m fuel cs = [] := by
  intro fuel
  induction fuel with
  | zero => intro cs _; rfl
  | succ f ih =>
    intro cs h
    cases cs with
    | nil => rfl
    | cons c cs =>
      rw [findallAux]
      have h0 := h 0
      rw [List.drop_zero] at h0
      rw [h0]
      exact ih cs (fun n => h (n + 1))

theorem scanDigits8_nil :
    ∀ (cs : List Char), (∀ n, takeDigits 8 (cs.drop n) = none) →
      scanDigits8 cs = none := by
  intro cs
  induction cs with
  | nil => intro _; rfl
  | cons c cs ih =>
    intro h
    rw [scanDigits8]
    have h0 := h 0
    rw [List.drop_zero] at h0
    rw [h0]
    split
    · rename_i heq
      simp at heq
    · split
      · rfl
      · exact ih (fun n => h (n + 1))

theorem scanExpense_nil :
    ∀ (cs : List Char), (∀ n, expenseCore (cs.drop n) = none) →
      scanExpense cs = none := by
  intro cs
  induction cs with
  | nil => intro _; rfl
  | cons c cs ih =>
    intro h
    rw [scanExpense]
    have h0 := h 0
    rw [List.drop_zero] at h0
    rw [h0]
    split
    · rename_i heq
      simp at heq
    · split
      · rfl
      · exact ih (fun n => h (n + 1))

theorem forall_drop_of_bounded (P : List Char → Prop) (l : List Char)
    (h : ∀ k, k ≤ l.length → P (l.drop k)) : ∀ k, P (l.drop k) := by
  intro k
  by_cases hk : k ≤ l.length
  · exact h k hk
  · rw [List.drop_eq_nil_of_le (by omega)]
    have := h l.length le_rfl
    rwa [List.drop_length] at this

theorem isDig_not_open (c : Char) (h : isDig c = true) : isOpenBr c = false := by
  cases ho : isOpenBr c with
  | false => rfl
  | true =>
    simp only [isOpenBr, Bool.or_eq_true, decide_eq_true_eq] at ho
    rcases ho with (rfl | rfl) | rfl <;> exact absurd h (by decide)

theorem m_compact_not_open (c : Char) (cs : List Char) (h : isOpenBr c = false) :
    m_compact_date (c :: cs) = none := by
  simp [m_compact_date, expectClass, h, bind, Option.bind]

theorem m_compact_nil : m_compact_date [] = none := rfl

theorem m_expense_not_open (c : Char) (cs : List Char) (h : isOpenBr c = false) :
    m_expense_date (c :: cs) = none := by
  simp [m_expense_date, expectClass, h, bind, Option.bind]

theorem m_expense_nil : m_expense_date [] = none := rfl


def c3_tail : List Char := " anything.ext".toList

theorem c3_tail_no8 : ∀ k, takeDigits 8 (c3_tail.drop k) = none :=
  forall_drop_of_bounded (fun l => takeDigits 8 l = none) c3_tail (by decide)

theorem c3_tail_compact : ∀ k, m_compact_date (c3_tail.drop k) = none :=
  forall_drop_of_bounded (fun l => m_compact_date l = none) c3_tail (by decide)

theorem c3_tail_expenseCore : ∀ k, expenseCore (c3_tail.drop k) = none :=
  forall_drop_of_bounded (fun l => expenseCore l = none) c3_tail (by decide)

theorem noDigits8 (q1 q2 q3 q4 w1 w2 v1 v2 : Char) :
    ∀ n, takeDigits 8
      ((q1 :: q2 :: q3 :: q4 :: '-' :: w1 :: w2 :: '-' :: v1 :: v2 :: ')' ::
        c3_tail).drop n) = none := by
  intro n
  rcases n with _|_|_|_|_|_|_|_|_|_|_|k
  · exact takeDigits_fail 8 [q1, q2, q3, q4] '-' _ (by simp) (by decide)
  · exact takeDigits_fail 8 [q2, q3, q4] '-' _ (by simp) (by decide)
  · exact takeDigits_fail 8 [q3, q4] '-' _ (by simp) (by decide)
  · exact takeDigits_fail 8 [q4] '-' _ (by simp) (by decide)
  · exact takeDigits_fail 8 [] '-' _ (by simp) (by decide)
  · exact takeDigits_fail 8 [w1, w2] '-' _ (by simp) (by decide)
  · exact takeDigits_fail 8 [w2] '-' _ (by simp) (by decide)
  · exact takeDigits_fail 8 [] '-' _ (by simp) (by decide)
  · exact takeDigits_fail 8 [v1, v2] ')' _ (by simp) (by decide)
  · exact takeDigits_fail 8 [v2] ')' _ (by simp) (by decide)
  · exact takeDigits_fail 8 [] ')' _ (by simp) (by decide)
  · exact c3_tail_no8 k

theorem expenseCore_fail (cs : List Char) (h : takeDigits 4 cs = none) :
    expenseCore cs = none := by
  simp [expenseCore, h, bind, Option.bind]

theorem noExpenseCore (q1 q2 q3 q4 w1 w2 v1 v2 : Char)
    (h1 : isDig q1 = true) (h2 : isDig q2 = true) (h3 : isDig q3 = true)
    (h4 : isDig q4 = true) :
    ∀ n, expenseCore
      ((q1 :: q2 :: q3 :: q4 :: '-' :: w1 :: w2 :: '-' :: v1 :: v2 :: ')' ::
        c3_tail).drop n) = none := by
  intro n
  rcases n with _|_|_|_|_|_|_|_|_|_|_|k
  · have e1 : takeDigits 4
        (q1 :: q2 :: q3 :: q4 ::
          ('-' :: w1 :: w2 :: '-' :: v1 :: v2 :: ')' :: c3_tail)) =
        some ([q1, q2, q3, q4],
          '-' :: w1 :: w2 :: '-' :: v1 :: v2 :: ')' :: c3_tail) :=
      takeDigits_append [q1, q2, q3, q4] _ (by
        intro c hc
        simp at hc
        rcases hc with rfl | rfl | rfl | rfl <;> assumption)
    have e2 : takeDigits 4 (w1 :: w2 :: '-' :: (v1 :: v2 :: ')' :: c3_tail)) =
        none := takeDigits_fail 4 [w1, w2] '-' _ (by simp) (by decide)
    simp [expenseCore, e1, expectCh, e2, bind, Option.bind]
  · exact expenseCore_fail _ (takeDigits_fail 4 [q2, q3, q4] '-' _ (by simp) (by decide))
  · exact expenseCore_fail _ (takeDigits_fail 4 [q3, q4] '-' _ (by simp) (by decide))
  · exact expenseCore_fail _ (takeDigits_fail 4 [q4] '-' _ (by simp) (by decide))
  · exact expenseCore_fail _ (takeDigits_fail 4 [] '-' _ (by simp) (by decide))
  · exact expenseCore_fail _ (takeDigits_fail 4 [w1, w2] '-' _ (by simp) (by decide))
  · exact expenseCore_fail _ (takeDigits_fail 4 [w2] '-' _ (by simp) (by decide))
  · exact expenseCore_fail _ (takeDigits_fail 4 [] '-' _ (by simp) (by decide))
  · exact expenseCore_fail _ (takeDigits_fail 4 [v1, v2] ')' _ (by simp) (by decide))
  · exact expenseCore_fail _ (takeDigits_fail 4 [v2] ')' _ (by simp) (by decide))
  · exact expenseCore_fail _ (takeDigits_fail 4 [] ')' _ (by simp) (by decide))
  · exact c3_tail_expenseCore k


theorem findall_compact_c3 (q1 q2 q3 q4 w1 w2 v1 v2 : Char)
    (h1 : isDig q1 = true) (h2 : isDig q2 = true) (h3 : isDig q3 = true)
    (h4 : isDig q4 = true) (h5 : isDig w1 = true) (h6 : isDig w2 = true)
    (h7 : isDig v1 = true) (h8 : isDig v2 = true) :
    findall m_compact_date
      ('(' :: q1 :: q2 :: q3 :: q4 :: '-' :: w1 :: w2 :: '-' :: v1 :: v2 ::
        ')' :: c3_tail) = [] := by
  apply findallAux_nil
  intro n
  rcases n with _|_|_|_|_|_|_|_|_|_|_|_|k
  · have hscan : scanDigits8
        (q1 :: q2 :: q3 :: q4 :: '-' :: w1 :: w2 :: '-' :: v1 :: v2 :: ')' ::
          c3_tail) = none :=
      scanDigits8_nil _ (noDigits8 q1 q2 q3 q4 w1 w2 v1 v2)
    simp [m_compact_date, expectClass, isOpenBr, hscan, bind, Option.bind]
  · exact m_compact_not_open q1 _ (isDig_not_open _ h1)
  · exact m_compact_not_open q2 _ (isDig_not_open _ h2)
  · exact m_compact_not_open q3 _ (isDig_not_open _ h3)
  · exact m_compact_not_open q4 _ (isDig_not_open _ h4)
  · exact m_compact_not_open '-' _ (by decide)
  · exact m_compact_not_open w1 _ (isDig_not_open _ h5)
  · exact m_compact_not_open w2 _ (isDig_not_open _ h6)
  · exact m_compact_not_open '-' _ (by decide)
  · exact m_compact_not_open v1 _ (isDig_not_open _ h7)
  · exact m_compact_not_open v2 _ (isDig_not_open _ h8)
  · exact m_compact_not_open ')' _ (by decide)
  · exact c3_tail_compact k

theorem c3_tail_expense : ∀ k, m_expense_date (c3_tail.drop k) = none :=
  forall_drop_of_bounded (fun l => m_expense_date l = none) c3_tail (by decide)

theorem findall_expense_c3 (q1 q2 q3 q4 w1 w2 v1 v2 : Char)
    (h1 : isDig q1 = true) (h2 : isDig q2 = true) (h3 : isDig q3 = true)
    (h4 : isDig q4 = true) (h5 : isDig w1 = true) (h6 : isDig w2 = true)
    (h7 : isDig v1 = true) (h8 : isDig v2 = true) :
    findall m_expense_date
      ('(' :: q1 :: q2 :: q3 :: q4 :: '-' :: w1 :: w2 :: '-' :: v1 :: v2 ::
        ')' :: c3_tail) = [] := by
  apply findallAux_nil
  intro n
  rcases n with _|_|_|_|_|_|_|_|_|_|_|_|k
  · have hscan : scanExpense
        (q1 :: q2 :: q3 :: q4 :: '-' :: w1 :: w2 :: '-' :: v1 :: v2 :: ')' ::
          c3_tail) = none :=
      scanExpense_nil _ (noExpenseCore q1 q2 q3 q4 w1 w2 v1 v2 h1 h2 h3 h4)
    simp [m_expense_date, expectClass, isOpenBr, hscan, bind, Option.bind]
  · exact m_expense_not_open q1 _ (isDig_not_open _ h1)
  · exact m_expense_not_open q2 _ (isDig_not_open _ h2)
  · exact m_expense_not_open q3 _ (isDig_not_open _ h3)
  · exact m_expense_not_open q4 _ (isDig_not_open _ h4)
  · exact m_expense_not_open '-' _ (by decide)
  · exact m_expense_not_open w1 _ (isDig_not_open _ h5)
  · exact m_expense_not_open w2 _ (isDig_not_open _ h6)
  · exact m_expense_not_open '-' _ (by decide)
  · exact m_expense_not_open v1 _ (isDig_not_open _ h7)
  · exact m_expense_not_open v2 _ (isDig_not_open _ h8)
  · exact m_expense_not_open ')' _ (by decide)
  · exact c3_tail_expense k

theorem m_full_date_digits (q1 q2 q3 q4 w1 w2 v1 v2 : Char) (rest : List Char)
    (h1 : isDig q1 = true) (h2 : isDig q2 = true) (h3 : isDig q3 = true)
    (h4 : isDig q4 = true) (h5 : isDig w1 = true) (h6 : isDig w2 = true)
    (h7 : isDig v1 = true) (h8 : isDig v2 = true) :
    m_full_date
      ('(' :: q1 :: q2 :: q3 :: q4 :: '-' :: w1 :: w2 :: '-' :: v1 :: v2 ::
        ')' :: rest) =
      some ([q1, q2, q3, q4, '-', w1, w2, '-', v1, v2], rest) := by
  have e1 : takeDigits 4
      (q1 :: q2 :: q3 :: q4 ::
        ('-' :: w1 :: w2 :: '-' :: v1 :: v2 :: ')' :: rest)) =
      some ([q1, q2, q3, q4], '-' :: w1 :: w2 :: '-' :: v1 :: v2 :: ')' :: rest) :=
    takeDigits_append [q1, q2, q3, q4] _ (by
      intro c hc
      simp at hc
      rcases hc with rfl | rfl | rfl | rfl <;> assumption)
  have e2 : takeDigits 2 (w1 :: w2 :: ('-' :: v1 :: v2 :: ')' :: rest)) =
      some ([w1, w2], '-' :: v1 :: v2 :: ')' :: rest) :=
    takeDigits_append [w1, w2] _ (by
      intro c hc
      simp at hc
      rcases hc with rfl | rfl <;> assumption)
  have e3 : takeDigits 2 (v1 :: v2 :: (')' :: rest)) =
      some ([v1, v2], ')' :: rest) :=
    takeDigits_append [v1, v2] _ (by
      intro c hc
      simp at hc
      rcases hc with rfl | rfl <;> assumption)
  simp [m_full_date, expectClass, isOpenBr, expectCh, isCloseBr, e1, e2, e3,
    bind, Option.bind]

theorem findall_full_c3 (q1 q2 q3 q4 w1 w2 v1 v2 : Char)
    (h1 : isDig q1 = true) (h2 : isDig q2 = true) (h3 : isDig q3 = true)
    (h4 : isDig q4 = true) (h5 : isDig w1 = true) (h6 : isDig w2 = true)
    (h7 : isDig v1 = true) (h8 : isDig v2 = true) :
    findall m_full_date
      ('(' :: q1 :: q2 :: q3 :: q4 :: '-' :: w1 :: w2 :: '-' :: v1 :: v2 ::
        ')' :: c3_tail) =
      [[q1, q2, q3, q4, '-', w1, w2, '-', v1, v2]] := by
  have hlen : ('(' :: q1 :: q2 :: q3 :: q4 :: '-' :: w1 :: w2 :: '-' :: v1 ::
      v2 :: ')' :: c3_tail).length = 24 + 1 := by
    simp [c3_tail]
  rw [findall, hlen, findallAux,
    m_full_date_digits q1 q2 q3 q4 w1 w2 v1 v2 c3_tail h1 h2 h3 h4 h5 h6 h7 h8]
  have htail : findallAux m_full_date 24 c3_tail = [] := by decide
  show [q1, q2, q3, q4, '-', w1, w2, '-', v1, v2] ::
    findallAux m_full_date 24 c3_tail =
    [[q1, q2, q3, q4, '-', w1, w2, '-', v1, v2]]
  rw [htail]


theorem full_precision_dates_c3 (y m d : Nat) (h : validYMD y m d = true) :
    full_precision_dates (c3_filename y m d) = [isoDate y m d] := by
  obtain ⟨hy, hm, hd⟩ := validYMD_bounds y m d h
  have g1 := (dC_spec (y / 1000 % 10) (by omega)).1
  have g2 := (dC_spec (y / 100 % 10) (by omega)).1
  have g3 := (dC_spec (y / 10 % 10) (by omega)).1
  have g4 := (dC_spec (y % 10) (by omega)).1
  have g5 := (dC_spec (m / 10 % 10) (by omega)).1
  have g6 := (dC_spec (m % 10) (by omega)).1
  have g7 := (dC_spec (d / 10 % 10) (by omega)).1
  have g8 := (dC_spec (d % 10) (by omega)).1
  have hfull := findall_full_c3 (dC (y / 1000 % 10)) (dC (y / 100 % 10))
    (dC (y / 10 % 10)) (dC (y % 10)) (dC (m / 10 % 10)) (dC (m % 10))
    (dC (d / 10 % 10)) (dC (d % 10)) g1 g2 g3 g4 g5 g6 g7 g8
  have hcomp := findall_compact_c3 (dC (y / 1000 % 10)) (dC (y / 100 % 10))
    (dC (y / 10 % 10)) (dC (y % 10)) (dC (m / 10 % 10)) (dC (m % 10))
    (dC (d / 10 % 10)) (dC (d % 10)) g1 g2 g3 g4 g5 g6 g7 g8
  have hexp := findall_expense_c3 (dC (y / 1000 % 10)) (dC (y / 100 % 10))
    (dC (y / 10 % 10)) (dC (y % 10)) (dC (m / 10 % 10)) (dC (m % 10))
    (dC (d / 10 % 10)) (dC (d % 10)) g1 g2 g3 g4 g5 g6 g7 g8
  unfold full_precision_dates
  rw [show findall m_full_date (c3_filename y m d) = [isoDate y m d] from hfull]
  rw [show findall m_compact_date (c3_filename y m d) = [] from hcomp]
  rw [show findall m_expense_date (c3_filename y m d) = [] from hexp]
  have hlen10 : (isoDate y m d).length = 10 := by simp [isoDate, pad4, pad2]
  have hval := isValidDate_isoDate y m d h
  simp [hlen10, hval]

theorem parse_date_c3 (y m d : Nat) (h : validYMD y m d = true) :
    parse_date_from_parentheses (c3_filename y m d) = some (isoDate y m d) := by
  unfold parse_date_from_parentheses
  rw [full_precision_dates_c3 y m d h]
  rfl

/-- C3: whenever at least one full-precision candidate (tier 1 full ISO date,
tier 2 compact eight-digit date, tier 3 expense timestamp) matches and
validates against the calendar, inference returns the calendar-earliest
validated candidate; and for every valid calendar date, the filename
`"(" ++ YYYY-MM-DD ++ ") anything.ext"` infers exactly that date. -/
theorem c3_earliest_full_precision_date :
    (∀ f x xs, full_precision_dates f = x :: xs →
      parse_date_from_parentheses f = some (pyMin x xs) ∧
      pyMin x xs ∈ full_precision_dates f ∧
      ∀ e ∈ full_precision_dates f, dateNum (pyMin x xs) ≤ dateNum e) ∧
    (∀ y m d, validYMD y m d = true →
      parse_date_from_parentheses (c3_filename y m d) = some (isoDate y m d)) := by
  constructor
  · intro f x xs hfp
    have hvalid := full_precision_dates_valid f
    have hx : isValidDate x = true :=
      hvalid x (by rw [hfp]; exact List.mem_cons_self _ _)
    have hxs : ∀ z ∈ xs, isValidDate z = true := fun z hz =>
      hvalid z (by rw [hfp]; exact List.mem_cons_of_mem _ hz)
    obtain ⟨hminv, hle⟩ := pyMin_le xs x hx hxs
    refine ⟨?_, ?_, ?_⟩
    · unfold parse_date_from_parentheses
      rw [hfp]
    · rw [hfp]
      exact pyMin_mem xs x
    · intro e he
      rw [hfp] at he
      exact hle e he
  · exact parse_date_c3

/-- C3 witness: a filename with two full dates returns the earlier, and the
concrete date 2020-05-01 round-trips through the parametric filename. -/
theorem c3_witness :
    (full_precision_dates ( "(2019-03-04) (2018-01-02) x.pdf".toList ) =
      [ "2019-03-04".toList, "2018-01-02".toList ] ∧
      (parse_date_from_parentheses ( "(2019-03-04) (2018-01-02) x.pdf".toList ) =
        some (pyMin ( "2019-03-04".toList ) [ "2018-01-02".toList ]) ∧
       pyMin ( "2019-03-04".toList ) [ "2018-01-02".toList ] ∈
         full_precision_dates ( "(2019-03-04) (2018-01-02) x.pdf".toList ) ∧
       ∀ e ∈ full_precision_dates ( "(2019-03-04) (2018-01-02) x.pdf".toList ),
         dateNum (pyMin ( "2019-03-04".toList ) [ "2018-01-02".toList ]) ≤
           dateNum e)) ∧
    (validYMD 2020 5 1 = true ∧
      parse_date_from_parentheses (c3_filename 2020 5 1) =
        some (isoDate 2020 5 1)) :=
  ⟨⟨by decide,
    c3_earliest_full_precision_date.1 ( "(2019-03-04) (2018-01-02) x.pdf".toList )
      ( "2019-03-04".toList ) [ "2018-01-02".toList ] (by decide)⟩,
   ⟨by decide, c3_earliest_full_precision_date.2 2020 5 1 (by decide)⟩⟩


end MetaPDF
